import Mathlib

/-!
Verification development for the firework orchestrator.

This file gives a shallow embedding, in Lean 4, of the parts of the
repository that the verified properties talk about:

* the scheduler (`Schedule`, `bestFit` — internal/scheduler),
* the agent's network assignment and kernel-argument handling
  (`assignNetworking`, `injectEnvVars`, `insertKernelArg`,
  `hasKernelArgPrefix` — internal/agent/agent.go),
* the enricher's publisher (`WriteAll` — internal/enricher/writer.go),
* the enricher's TAP interface naming (`tapIfname` —
  internal/enricher/input.go),
* tenant expansion (`ExpandTenants` — internal/enricher tenant code),
* the health monitor's result bookkeeping (`recordResult` —
  internal/healthcheck).

Go integers are modelled as `Int`; Go byte arithmetic is `Nat` with an
explicit `% 256`; the FNV-1a hash is `Nat` with an explicit `% 2 ^ 32`.
Go maps are modelled either as functions (`String → Option _`,
`String → Int`) or as association lists, whichever the surrounding code
observes.  Go string manipulation (strings.Fields, strings.Join,
strings.Split) is modelled by structural functions over the character
list of a `String`, so that every definition evaluates inside the
kernel.
-/

/-! ## Data model (internal/config/types.go) -/

/-- PortForward maps a host port to a VM port (config.PortForward). -/
structure PortForward where
  hostPort : Int
  vmPort : Int
deriving DecidableEq

/-- ServiceLink declares a same-node dependency (config.ServiceLink). -/
structure ServiceLink where
  service : String
  envVar : String
  port : Int
  protocol : String
deriving DecidableEq

/-- CrossNodeLink declares a cross-node dependency (config.CrossNodeLink). -/
structure CrossNodeLink where
  service : String
  env : String
  hostPort : Int
deriving DecidableEq

/-- NetworkConfig holds the per-VM network identity (config.NetworkConfig).
The field `interface` is Go's `Interface`. -/
structure NetworkConfig where
  interface : String
  hostDevName : String
  guestMAC : String
  guestIP : String
deriving DecidableEq

/-- HealthCheckConfig (config.HealthCheckConfig).  `hcType` is Go's `Type`
(`type` is a Lean keyword); durations are nanosecond counts
(Go `time.Duration` is an int64 of nanoseconds). -/
structure HealthCheckConfig where
  hcType : String
  target : String
  port : Int
  path : String
  interval : Int
  timeout : Int
  retries : Int
deriving DecidableEq

/-- ServiceConfig (config.ServiceConfig): one fully resolved service.
`env` and `metadata` model Go `map[string]string` as association lists
whose keys are distinct. -/
structure ServiceConfig where
  name : String
  image : String
  kernel : String
  vcpus : Int
  memoryMB : Int
  kernelArgs : String
  network : Option NetworkConfig
  healthCheck : Option HealthCheckConfig
  portForwards : List PortForward
  env : List (String × String)
  links : List ServiceLink
  metadata : List (String × String)
  antiAffinityGroup : String
  crossNodeLinks : List CrossNodeLink
  nodeHostIPEnv : String
deriving DecidableEq

/-- NodeConfig (config.NodeConfig): the per-node document in the store. -/
structure NodeConfig where
  node : String
  services : List ServiceConfig
  hostIP : String
deriving DecidableEq

/-! ## Scheduler (internal/scheduler/scheduler.go) -/

/-- Node describes an active node with its capacity (scheduler.Node). -/
structure Node where
  instanceID : String
  capacityVCPUs : Int
  capacityMemMB : Int
deriving DecidableEq

/-- The scheduler's loop state: the Go locals `usedVCPUs`, `usedMemMB`,
`result` and `nodeGroups` of `Schedule`, each a map modelled as a
function (a missing key reads as the zero value, as in Go). -/
structure SchedState where
  usedVCPUs : String → Int
  usedMemMB : String → Int
  result : String → List ServiceConfig
  nodeGroups : String → String → Bool

/-- The state at the top of `Schedule`: all maps empty.  (Go also seeds
`result[n.InstanceID] = nil` for every node, which is observationally
the same as the empty map read through Go's zero-value lookup.) -/
def initState : SchedState :=
  { usedVCPUs := fun _ => 0
    usedMemMB := fun _ => 0
    result := fun _ => []
    nodeGroups := fun _ _ => false }

/-- The Go `nodeByID` map: built by iterating `nodes`; a later node with
the same instance ID overwrites an earlier one. -/
def nodeByID (nodes : List Node) : String → Option Node :=
  nodes.foldl (fun m n => fun id => if id = n.instanceID then some n else m id)
    (fun _ => none)

/-- Committing a service to a node: the common tail of both scheduler
phases (`result[...] = append(...)`, `usedVCPUs[...] += ...`,
`usedMemMB[...] += ...`, and marking the anti-affinity group when it is
non-empty). -/
def commit (st : SchedState) (nid : String) (svc : ServiceConfig) : SchedState :=
  { usedVCPUs := fun id => if id = nid then st.usedVCPUs id + svc.vcpus else st.usedVCPUs id
    usedMemMB := fun id => if id = nid then st.usedMemMB id + svc.memoryMB else st.usedMemMB id
    result := fun id => if id = nid then st.result id ++ [svc] else st.result id
    nodeGroups := fun id g =>
      if svc.antiAffinityGroup ≠ "" ∧ id = nid ∧ g = svc.antiAffinityGroup then true
      else st.nodeGroups id g }

/-- One iteration of Phase 1 of `Schedule`: keep `svc` on its previously
assigned node when that node is alive, still has capacity, and no other
service of the same anti-affinity group was committed to it during this
pass; otherwise defer `svc` to Phase 2 (append it to `unplaced`). -/
def phase1Step (byID : String → Option Node) (existing : String → Option String)
    (acc : SchedState × List ServiceConfig) (svc : ServiceConfig) :
    SchedState × List ServiceConfig :=
  match existing svc.name with
  | none => (acc.1, acc.2 ++ [svc])
  | some nid =>
    match byID nid with
    | none => (acc.1, acc.2 ++ [svc])
    | some n =>
      if acc.1.usedVCPUs n.instanceID + svc.vcpus > n.capacityVCPUs ∨
          acc.1.usedMemMB n.instanceID + svc.memoryMB > n.capacityMemMB then
        (acc.1, acc.2 ++ [svc])
      else if svc.antiAffinityGroup ≠ "" ∧
          acc.1.nodeGroups n.instanceID svc.antiAffinityGroup = true then
        (acc.1, acc.2 ++ [svc])
      else
        (commit acc.1 n.instanceID svc, acc.2)

/-- Phase 1 of `Schedule` over the whole service list. -/
def phase1 (byID : String → Option Node) (existing : String → Option String)
    (services : List ServiceConfig) : SchedState × List ServiceConfig :=
  services.foldl (phase1Step byID existing) (initState, [])

/-- The accumulator of the `bestFit` loop: the Go locals `best`,
`bestFree`, `bestHasConflict`. -/
structure BestAcc where
  best : String
  bestFree : Int
  bestHasConflict : Bool
deriving DecidableEq

/-- One iteration of the `bestFit` loop over a candidate node. -/
def bestFitStep (st : SchedState) (svc : ServiceConfig) (acc : BestAcc) (n : Node) :
    BestAcc :=
  let freeVCPUs := n.capacityVCPUs - st.usedVCPUs n.instanceID
  let freeMemMB := n.capacityMemMB - st.usedMemMB n.instanceID
  if freeVCPUs < svc.vcpus ∨ freeMemMB < svc.memoryMB then acc
  else
    let hasConflict : Bool :=
      decide (svc.antiAffinityGroup ≠ "") && st.nodeGroups n.instanceID svc.antiAffinityGroup
    if acc.best = "" ∨ (acc.bestHasConflict = true ∧ hasConflict = false) ∨
        (acc.bestHasConflict = hasConflict ∧ acc.bestFree < freeVCPUs) then
      { best := n.instanceID, bestFree := freeVCPUs, bestHasConflict := hasConflict }
    else acc

/-- bestFit (scheduler.bestFit): the instance ID of the node with the most
remaining vCPU capacity that still fits `svc`, preferring nodes without
the service's anti-affinity group; "" when no node fits. -/
def bestFit (nodes : List Node) (svc : ServiceConfig) (st : SchedState) : String :=
  (nodes.foldl (bestFitStep st svc) { best := "", bestFree := -1, bestHasConflict := true }).best

/-- Phase 2 of `Schedule`: place each deferred service on its best-fit
node, failing the whole call when none fits. -/
def phase2 (nodes : List Node) : SchedState → List ServiceConfig → Except String SchedState
  | st, [] => .ok st
  | st, svc :: rest =>
    let target := bestFit nodes svc st
    if target = "" then
      .error ("no node has sufficient capacity for service " ++ svc.name)
    else
      phase2 nodes (commit st target svc) rest

/-- The Phase 2 pre-sort: deferred services ordered by requested vCPU,
largest first (Go `sort.Slice` with `less = VCPUs_i > VCPUs_j`; the Go
sort is unstable, so any vCPU-descending order is a faithful model). -/
def sortByVCPUsDesc (l : List ServiceConfig) : List ServiceConfig :=
  List.insertionSort (fun a b => b.vcpus ≤ a.vcpus) l

/-- Schedule (scheduler.Schedule): distribute `services` across `nodes`,
preserving `existing` assignments when possible.  The returned map
(instance ID → services) is modelled as a function. -/
def Schedule (services : List ServiceConfig) (nodes : List Node)
    (existing : String → Option String) :
    Except String (String → List ServiceConfig) :=
  if nodes.length = 0 then
    if services.length > 0 then
      .error ("no active nodes available to schedule " ++ toString services.length ++ " service(s)")
    else .ok (fun _ => [])
  else
    let p1 := phase1 (nodeByID nodes) existing services
    (phase2 nodes p1.1 (sortByVCPUsDesc p1.2)).map (fun st => st.result)

/-- The services assigned to one node by a `Schedule` result (reads the
returned map at one key), for stating concrete facts about outcomes. -/
def scheduleAt (services : List ServiceConfig) (nodes : List Node)
    (existing : String → Option String) (id : String) :
    Except String (List ServiceConfig) :=
  (Schedule services nodes existing).map (fun f => f id)

/-- The total number of service instances in an assignment, counted over
the node inventory the scheduler was given. -/
def totalAssigned (nodes : List Node) (f : String → List ServiceConfig) : Nat :=
  ((nodes.map (fun n => f n.instanceID)).flatten).length

/-- The concatenation of all per-node service lists of an assignment:
the multiset of placed services. -/
def assignedServices (nodes : List Node) (f : String → List ServiceConfig) :
    List ServiceConfig :=
  (nodes.map (fun n => f n.instanceID)).flatten

/-- A minimal service for concrete scheduler inputs: only the fields the
scheduler reads (name, vcpus, memory, anti-affinity group) vary. -/
def mkSchedSvc (name : String) (vcpus memoryMB : Int) (group : String) : ServiceConfig :=
  { name := name, image := "/img/" ++ name ++ ".ext4", kernel := "/img/vmlinux"
    vcpus := vcpus, memoryMB := memoryMB, kernelArgs := ""
    network := none, healthCheck := none, portForwards := []
    env := [], links := [], metadata := [], antiAffinityGroup := group
    crossNodeLinks := [], nodeHostIPEnv := "" }

/-- Total vCPUs requested by a service list (the sum the capacity claims
quantify over). -/
def totalVCPUs (services : List ServiceConfig) : Int :=
  (services.map (fun s => s.vcpus)).sum

/-- Total memory requested by a service list. -/
def totalMemMB (services : List ServiceConfig) : Int :=
  (services.map (fun s => s.memoryMB)).sum

/-- Aggregate vCPU capacity of a node inventory. -/
def totalCapacityVCPUs (nodes : List Node) : Int :=
  (nodes.map (fun n => n.capacityVCPUs)).sum

/-- Aggregate memory capacity of a node inventory. -/
def totalCapacityMemMB (nodes : List Node) : Int :=
  (nodes.map (fun n => n.capacityMemMB)).sum

/-- The guard at the top of the `bestFit` loop, as a predicate: `svc`
still fits into the remaining capacity of `n` under state `st`. -/
def fits (st : SchedState) (svc : ServiceConfig) (n : Node) : Prop :=
  svc.vcpus ≤ n.capacityVCPUs - st.usedVCPUs n.instanceID ∧
  svc.memoryMB ≤ n.capacityMemMB - st.usedMemMB n.instanceID

instance (st : SchedState) (svc : ServiceConfig) (n : Node) : Decidable (fits st svc n) := by
  unfold fits; infer_instance

/-- The Go local `hasConflict` of the `bestFit` loop, as a function of the
candidate's instance ID. -/
def hasConflictB (st : SchedState) (svc : ServiceConfig) (id : String) : Bool :=
  decide (svc.antiAffinityGroup ≠ "") && st.nodeGroups id svc.antiAffinityGroup

/-- A node that `bestFit` can both fit and pick without an anti-affinity
conflict (and whose ID is distinguishable from the loop's "" sentinel). -/
def goodNode (st : SchedState) (svc : ServiceConfig) (n : Node) : Prop :=
  fits st svc n ∧ hasConflictB st svc n.instanceID = false ∧ n.instanceID ≠ ""

/-- Whether a `Schedule` call succeeded (the Go `err == nil` check). -/
def scheduleOk (services : List ServiceConfig) (nodes : List Node)
    (existing : String → Option String) : Bool :=
  match Schedule services nodes existing with
  | .ok _ => true
  | .error _ => false

/-! ## Kernel-argument tokens (agent.go; Go strings.Fields / strings.Join) -/

/-- Go strings.Fields at the character level: split around runs of
whitespace, no empty tokens. -/
def wordsP (l : List Char) : List (List Char) :=
  (l.splitOnP (fun c => c.isWhitespace)).filter (fun w => w ≠ [])

/-- Go strings.Fields: the whitespace-separated tokens of a string. -/
def fields (s : String) : List String :=
  (wordsP s.data).map (fun w => String.mk w)

/-- A well-formed token: non-empty and free of whitespace (exactly the
strings that `fields` keeps intact). -/
def wfTok (s : String) : Prop :=
  s.data ≠ [] ∧ ∀ c ∈ s.data, ¬c.isWhitespace

instance (s : String) : Decidable (wfTok s) := by
  unfold wfTok; infer_instance

/-- Go strings.Join with separator " ". -/
def joinSp : List String → String
  | [] => ""
  | [p] => p
  | p :: rest => p ++ " " ++ joinSp rest

/-- The token-level core of `insertKernelArg`: place `arg` immediately
before the first "--" token; when there is none, append it. -/
def tokenInsert : List String → String → List String
  | [], arg => [arg]
  | t :: ts, arg => if t = "--" then arg :: t :: ts else t :: tokenInsert ts arg

/-- insertKernelArg (agent.go): insert a kernel argument before the
optional "--" separator (re-joining the tokens with single spaces, as
the Go take/append/join does); with no separator, append `" " ++ arg`
to the original string; an empty string becomes just `arg`. -/
def insertKernelArg (kernelArgs arg : String) : String :=
  if kernelArgs = "" then arg
  else if (fields kernelArgs).any (fun part => part = "--") then
    joinSp (tokenInsert (fields kernelArgs) arg)
  else kernelArgs ++ " " ++ arg

/-- hasKernelArgPrefix (agent.go): does a token before the "--"
separator start with `pre`? -/
def hasKernelArgPrefix (kernelArgs pre : String) : Bool :=
  ((fields kernelArgs).takeWhile (fun tok => tok ≠ "--")).any
    (fun tok => pre.data.isPrefixOf tok.data)

/-- Byte-wise lexicographic order on strings — the order used by Go
sort.Strings — over character lists. -/
def lexLe : List Char → List Char → Bool
  | [], _ => true
  | _ :: _, [] => false
  | a :: as, b :: bs => if a = b then lexLe as bs else decide (a < b)

/-- Go sort.Strings: ascending lexicographic sort. -/
def sortStrings (l : List String) : List String :=
  List.insertionSort (fun a b => lexLe a.data b.data = true) l

/-- The kernel-argument token emitted for one env entry
(Go fmt.Sprintf of firework.env.KEY=VALUE). -/
def envToken (k v : String) : String :=
  "firework.env." ++ k ++ "=" ++ v

/-- Reading the env map at a key (Go `svc.Env[k]`). -/
def envLookup (env : List (String × String)) (k : String) : String :=
  match env.lookup k with
  | some v => v
  | none => ""

/-- The per-service body of injectEnvVars (agent.go): skip services with
no env entries; otherwise insert one firework.env token per entry into
KernelArgs, in sorted key order. -/
def injectEnvVarsSvc (svc : ServiceConfig) : ServiceConfig :=
  if svc.env.length = 0 then svc
  else
    { svc with kernelArgs :=
        ((sortStrings (svc.env.map (fun p => p.1))).foldl
          (fun ka k => insertKernelArg ka (envToken k (envLookup svc.env k)))
          svc.kernelArgs) }

/-- injectEnvVars (agent.go) over the whole service list. -/
def injectEnvVars (services : List ServiceConfig) : List ServiceConfig :=
  services.map injectEnvVarsSvc

/-- The env tokens of a service in sorted key order (what C6 says ends
up in the kernel arguments). -/
def envTokens (svc : ServiceConfig) : List String :=
  (sortStrings (svc.env.map (fun p => p.1))).map
    (fun k => envToken k (envLookup svc.env k))

/-! ## Agent network assignment (agent.go assignNetworking) -/

/-- stripCIDR (agent.go): drop the suffix from the last "/" on, when one
exists (Go strings.LastIndex). -/
def stripCIDR (s : String) : String :=
  if (s.data.splitOnP (fun c => c == '/')).length ≤ 1 then s
  else String.mk (List.intercalate ['/'] (s.data.splitOnP (fun c => c == '/')).dropLast)

/-- subnetMask (network/setup.go): the prefix length after the last "/";
"24" when the string has no slash. -/
def subnetMask (cidr : String) : String :=
  if (cidr.data.splitOnP (fun c => c == '/')).length ≤ 1 then "24"
  else String.mk ((cidr.data.splitOnP (fun c => c == '/')).getLastD [])

/-- SubnetMaskBits (network/setup.go): dotted-decimal netmask for a CIDR
prefix length, defaulting to /24. -/
def SubnetMaskBits (cidr : String) : String :=
  if subnetMask cidr = "8" then "255.0.0.0"
  else if subnetMask cidr = "16" then "255.255.0.0"
  else if subnetMask cidr = "24" then "255.255.255.0"
  else if subnetMask cidr = "28" then "255.255.255.240"
  else "255.255.255.0"

/-- Decimal digit parsing for `parseCIDR4`. -/
def parseDec (l : List Char) : Option Nat :=
  if l = [] then none
  else l.foldl (fun acc c =>
    match acc with
    | none => none
    | some n => if c.isDigit then some (n * 10 + (c.toNat - 48)) else none) (some 0)

/-- The IPv4 dotted-quad parse of Go net.ParseCIDR (stdlib, outside the
repo): "a.b.c.d/m" with octets ≤ 255 and mask ≤ 32, yielding the octets
as written (ParseCIDR returns the IP before masking, which is what
assignNetworking copies). -/
def parseCIDR4 (s : String) : Option (Nat × Nat × Nat × Nat) :=
  match s.data.splitOnP (fun c => c == '/') with
  | [addr, mask] =>
    match parseDec mask with
    | none => none
    | some m =>
      if m ≤ 32 then
        match addr.splitOnP (fun c => c == '.') with
        | [a, b, c, d] =>
          match parseDec a, parseDec b, parseDec c, parseDec d with
          | some oa, some ob, some oc, some od =>
            if oa ≤ 255 ∧ ob ≤ 255 ∧ oc ≤ 255 ∧ od ≤ 255 then some (oa, ob, oc, od)
            else none
          | _, _, _, _ => none
        | _ => none
      else none
  | _ => none

/-- One decimal digit character. -/
def decDigit : Nat → Char
  | 0 => '0' | 1 => '1' | 2 => '2' | 3 => '3' | 4 => '4'
  | 5 => '5' | 6 => '6' | 7 => '7' | 8 => '8' | 9 => '9'
  | _ => '?'

/-- Go net's uitoa for one octet (values < 1000, no leading zeros). -/
def decOctet (n : Nat) : List Char :=
  if n < 10 then [decDigit n]
  else if n < 100 then [decDigit (n / 10), decDigit (n % 10)]
  else [decDigit (n / 100), decDigit (n / 10 % 10), decDigit (n % 10)]

/-- Go net.IP.String for a 4-byte address: dotted decimal octets. -/
def ipString (o0 o1 o2 o3 : Nat) : String :=
  String.mk (decOctet o0 ++ '.' :: decOctet o1 ++ '.' :: decOctet o2 ++ '.' :: decOctet o3)

/-- Go fmt.Sprintf "%02X": uppercase hex, zero-padded to two digits. -/
def sprintf02X (n : Nat) : String :=
  String.mk (List.replicate (2 - ((Nat.toDigits 16 n).map Char.toUpper).length) '0' ++
    ((Nat.toDigits 16 n).map Char.toUpper))

/-- The agent configuration fields read by assignNetworking. -/
structure AgentNetConfig where
  vmSubnet : String
  vmGateway : String
deriving DecidableEq

/-- The loop body of assignNetworking over the service list: `idx` is
the Go `idx` counter and `o3` the current last octet of `nextIP` (a Go
byte: incremented modulo 256).  Services without networking pass
through; a networked service receives the guest IP, the MAC, and — when
its kernel arguments do not already carry an "ip=" token before "--" —
the kernel autoconfig token. -/
def assignLoop (o0 o1 o2 : Nat) (gateway netmask : String) :
    Nat → Nat → List ServiceConfig → List ServiceConfig
  | _, _, [] => []
  | idx, o3, svc :: rest =>
    match svc.network with
    | none => svc :: assignLoop o0 o1 o2 gateway netmask idx o3 rest
    | some nw =>
      { svc with
          network := some { nw with
            guestIP := ipString o0 o1 o2 o3
            guestMAC := "AA:FC:00:00:00:" ++ sprintf02X (idx + 1) }
          kernelArgs :=
            if hasKernelArgPrefix svc.kernelArgs "ip=" = true then svc.kernelArgs
            else insertKernelArg svc.kernelArgs
              ("ip=" ++ ipString o0 o1 o2 o3 ++ "::" ++ gateway ++ ":" ++ netmask ++
                "::eth0:off") } ::
        assignLoop o0 o1 o2 gateway netmask (idx + 1) ((o3 + 1) % 256) rest

/-- assignNetworking (agent.go): no-op without a subnet or when the
subnet does not parse as IPv4; otherwise walk the (name-sorted) service
list starting at last octet 2 and index 0. -/
def assignNetworking (cfg : AgentNetConfig) (services : List ServiceConfig) :
    List ServiceConfig :=
  if cfg.vmSubnet = "" then services
  else
    match parseCIDR4 cfg.vmSubnet with
    | none => services
    | some (o0, o1, o2, _) =>
      assignLoop o0 o1 o2 (stripCIDR cfg.vmGateway) (SubnetMaskBits cfg.vmSubnet) 0 2 services

/-- The services that request networking. -/
def networkedServices (services : List ServiceConfig) : List ServiceConfig :=
  services.filter (fun s => s.network.isSome)

/-- The guest addresses of the networked services, in order. -/
def guestIPs (services : List ServiceConfig) : List String :=
  services.filterMap (fun s => s.network.map (fun nw => nw.guestIP))

/-- A networked fixture service for concrete inputs. -/
def mkNetSvc (name : String) : ServiceConfig :=
  { mkSchedSvc name 1 128 "" with
    network := some { interface := "tap-" ++ name, hostDevName := "", guestMAC := "", guestIP := "" } }

/-! ## Enricher publisher (internal/enricher/writer.go) -/

/-- An S3 mutation issued by the publisher. -/
inductive S3Op
  | put (key : String) (nc : NodeConfig)
  | delete (key : String)
deriving DecidableEq

/-- nodeKey (writer.go): the S3 key of a node's config file. -/
def nodeKey (pre nodeName : String) : String :=
  pre ++ "nodes/" ++ nodeName ++ ".yaml"

/-- listNodeConfigKeys (writer.go): the keys under the nodes/ namespace
that end in ".yaml"; `objects` models the bucket contents as an
association list key → stored document. -/
def listNodeConfigKeys (pre : String) (objects : List (String × NodeConfig)) : List String :=
  (objects.map (fun p => p.1)).filter
    (fun k => (pre ++ "nodes/").data.isPrefixOf k.data && (".yaml").data.isSuffixOf k.data)

/-- WriteAll (writer.go), as the list of store operations it performs:
no operation at all for an empty config list; otherwise it writes every
config and then deletes the listed node keys that are not desired. -/
def WriteAllOps (pre : String) (objects : List (String × NodeConfig))
    (configs : List NodeConfig) : List S3Op :=
  if configs.length = 0 then []
  else
    (configs.map (fun nc => S3Op.put (nodeKey pre nc.node) nc)) ++
    ((listNodeConfigKeys pre objects).filter
        (fun k => !(configs.map (fun nc => nodeKey pre nc.node)).contains k)).map S3Op.delete

/-- The effect of one store operation on the bucket contents. -/
def applyOp (objects : List (String × NodeConfig)) : S3Op → List (String × NodeConfig)
  | .put k nc => (objects.filter (fun p => p.1 ≠ k)) ++ [(k, nc)]
  | .delete k => objects.filter (fun p => p.1 ≠ k)

/-- The effect of a sequence of store operations. -/
def applyOps (objects : List (String × NodeConfig)) (ops : List S3Op) :
    List (String × NodeConfig) :=
  ops.foldl applyOp objects

/-! ## Health monitor (internal/healthcheck/checker.go) -/

/-- healthcheck.Status. -/
inductive Status
  | healthy
  | unhealthy
  | unknown
deriving DecidableEq

/-- healthcheck.Result, without the wall-clock LastChecked field. -/
structure HCResult where
  status : Status
  failures : Int
  lastError : String
deriving DecidableEq

/-- recordResult (checker.go) as a pure function of the stored result,
the configured retries, the check outcome (`checkErr`) and the injected
restart callback's outcome (`restartErr`, consulted only if the
callback runs).  Returns the stored result afterwards, paired with
whether the restart callback was invoked.  Log output and the
LastChecked timestamp are omitted. -/
def recordResult (r : HCResult) (retriesCfg : Int) (checkErr : Option String)
    (restartErr : Option String) : HCResult × Bool :=
  let r1 := match checkErr with
    | some e => { r with failures := r.failures + 1, lastError := e, status := Status.unhealthy }
    | none => { r with failures := 0, lastError := "", status := Status.healthy }
  let retries := if retriesCfg = 0 then 3 else retriesCfg
  if r1.failures ≥ retries then
    match restartErr with
    | none => ({ r1 with failures := 0, status := Status.unknown }, true)
    | some _ => (r1, true)
  else (r1, false)

/-! ## TAP interface naming (internal/enricher/input.go) -/

/-- FNV-1a, 32 bits, over bytes (Go hash/fnv), with the overflow written
as an explicit mod 2^32. -/
def fnv1a32 (bytes : List Nat) : Nat :=
  bytes.foldl (fun h b => ((h ^^^ b) * 16777619) % 4294967296) 2166136261

/-- One lowercase hex digit as a byte (0-9 then a-f). -/
def hexDigitB (n : Nat) : Nat :=
  if n < 10 then 48 + n else 87 + n

/-- Go fmt.Sprintf "%05x" for values below 2^20: exactly five lowercase
hex digit bytes. -/
def hex5 (n : Nat) : List Nat :=
  [hexDigitB (n / 65536 % 16), hexDigitB (n / 4096 % 16), hexDigitB (n / 256 % 16),
    hexDigitB (n / 16 % 16), hexDigitB (n % 16)]

/-- The bytes of an ASCII string (for concrete service names). -/
def strBytes (s : String) : List Nat :=
  s.data.map Char.toNat

/-- tapIfname (input.go) over the service name's bytes: "tap-" + name
when the name is at most 11 bytes, otherwise "tap-" + first six bytes +
five hex digits of the low 20 bits (the 0xfffff mask) of the FNV-1a
hash. -/
def tapIfname (serviceName : List Nat) : List Nat :=
  if serviceName.length ≤ 11 then strBytes "tap-" ++ serviceName
  else strBytes "tap-" ++ (serviceName.take 6 ++ hex5 (fnv1a32 serviceName % 1048576))

/-! ## Tenant expansion (internal/enricher input.go / tenant code) -/

/-- enricher.HealthCheckSpec (`hcType` is Go's `Type`). -/
structure HealthCheckSpec where
  hcType : String
  port : Int
  path : String
  interval : String
  timeout : String
  retries : Int
deriving DecidableEq

/-- enricher.ServiceSpec: the user-facing service definition. -/
structure ServiceSpec where
  name : String
  image : String
  kernel : String
  vcpus : Int
  memoryMB : Int
  kernelArgs : String
  nodeType : String
  network : Bool
  portForwards : List PortForward
  healthCheck : Option HealthCheckSpec
  env : List (String × String)
  links : List ServiceLink
  metadata : List (String × String)
  antiAffinityGroup : String
  crossNodeLinks : List CrossNodeLink
  nodeHostIPEnv : String
deriving DecidableEq

/-- enricher.TenantOverride: per-tenant configuration of one service. -/
structure TenantOverride where
  sourceImage : String
  nodeType : String
  image : String
  vcpus : Int
  memoryMB : Int
  kernelArgs : String
  network : Bool
  portForwards : List PortForward
  healthCheck : Option HealthCheckSpec
  links : List ServiceLink
  env : List (String × String)
  metadata : List (String × String)
  antiAffinityGroup : String
  crossNodeLinks : List CrossNodeLink
  nodeHostIPEnv : String
deriving DecidableEq

/-- enricher.TenantServiceFile. -/
structure TenantServiceFile where
  baseName : String
  override : TenantOverride
deriving DecidableEq

/-- enricher.TenantConfig. -/
structure TenantConfig where
  id : String
  services : List TenantServiceFile
deriving DecidableEq

/-- Setting one key of a Go string map modelled as an association list:
overwrite an existing entry, else append. -/
def mapSet (m : List (String × String)) (k v : String) : List (String × String) :=
  if (m.map (fun p => p.1)).contains k then
    m.map (fun p => if p.1 = k then (k, v) else p)
  else m ++ [(k, v)]

/-- The merge loops of ExpandTenants: copy the base entries, then write
every overlay entry over them (overlay wins). -/
def mergeStringMap (base ov : List (String × String)) : List (String × String) :=
  ov.foldl (fun acc p => mapSet acc p.1 p.2) base

/-- The Go `baseByName` map of ExpandTenants (last same-named base
wins). -/
def baseByName (base : List ServiceSpec) : String → Option ServiceSpec :=
  base.foldl (fun m svc => fun n => if n = svc.name then some svc else m n) (fun _ => none)

/-- cloneServiceSpec: the Go deep copy; with value semantics the clone
is the value itself. -/
def cloneServiceSpec (src : ServiceSpec) : ServiceSpec := src

/-- deriveTenantImage (tenant code): prepend the tenant ID to the image
filename (filepath.Dir/Base/Join on clean slash-separated paths). -/
def deriveTenantImage (baseImage tenantID : String) : String :=
  if (baseImage.data.splitOnP (fun c => c == '/')).length ≤ 1 then
    tenantID ++ "-" ++ baseImage
  else
    String.mk (List.intercalate ['/']
      ((baseImage.data.splitOnP (fun c => c == '/')).dropLast ++
        [(tenantID ++ "-" ++
            String.mk ((baseImage.data.splitOnP (fun c => c == '/')).getLastD [])).data]))

/-- standaloneSpec (tenant code): a full service from a self-contained
tenant file; links and cross-node links are rewritten to the
tenant-namespaced targets; the image defaults by convention. -/
def standaloneSpec (tenantID : String) (tsf : TenantServiceFile) : ServiceSpec :=
  { name := tenantID ++ "-" ++ tsf.baseName
    image := if tsf.override.image = "" then
        "/var/lib/images/" ++ tenantID ++ "-" ++ tsf.baseName ++ "-rootfs.ext4"
      else tsf.override.image
    kernel := ""
    vcpus := tsf.override.vcpus
    memoryMB := tsf.override.memoryMB
    kernelArgs := tsf.override.kernelArgs
    nodeType := tsf.override.nodeType
    network := tsf.override.network
    portForwards := tsf.override.portForwards
    healthCheck := tsf.override.healthCheck
    env := tsf.override.env
    links := tsf.override.links.map (fun l => { l with service := tenantID ++ "-" ++ l.service })
    metadata := tsf.override.metadata
    antiAffinityGroup := tsf.override.antiAffinityGroup
    crossNodeLinks := tsf.override.crossNodeLinks.map
      (fun l => { l with service := tenantID ++ "-" ++ l.service })
    nodeHostIPEnv := tsf.override.nodeHostIPEnv }

/-- The override-mode body of ExpandTenants: clone the base, rename,
rewrite the image path, apply the non-zero overlay fields (vcpus,
memory, kernel args, health check), merge env and metadata (overlay
wins), replace port-forwards when the overlay sets them, and rewrite
the base's links to tenant-namespaced targets.  The Go code performs
these assignments sequentially on the clone; they touch disjoint
fields, so this single record update is the same function.  Note the
overlay's links, network, node type, anti-affinity group, cross-node
links and node-host-ip-env are not consulted. -/
def applyOverride (tenantID : String) (baseSvc : ServiceSpec) (ov : TenantOverride) :
    ServiceSpec :=
  { cloneServiceSpec baseSvc with
    name := tenantID ++ "-" ++ baseSvc.name
    image := deriveTenantImage baseSvc.image tenantID
    vcpus := if ov.vcpus ≠ 0 then ov.vcpus else baseSvc.vcpus
    memoryMB := if ov.memoryMB ≠ 0 then ov.memoryMB else baseSvc.memoryMB
    kernelArgs := if ov.kernelArgs ≠ "" then ov.kernelArgs else baseSvc.kernelArgs
    healthCheck := match ov.healthCheck with
      | some hc => some hc
      | none => baseSvc.healthCheck
    env := if ov.env.length > 0 then mergeStringMap baseSvc.env ov.env else baseSvc.env
    metadata := if ov.metadata.length > 0 then mergeStringMap baseSvc.metadata ov.metadata
      else baseSvc.metadata
    portForwards := if ov.portForwards.length > 0 then ov.portForwards
      else baseSvc.portForwards
    links := baseSvc.links.map (fun l => { l with service := tenantID ++ "-" ++ l.service }) }

/-- ExpandTenants (tenant code): generate per-tenant specs from base
services and tenant overlays (override mode when a base of the same
filename exists, standalone mode when none exists but node_type is set,
silently dropped otherwise). -/
def ExpandTenants (base : List ServiceSpec) (tenants : List TenantConfig) :
    List ServiceSpec :=
  tenants.foldl (fun expanded tenant =>
    tenant.services.foldl (fun expanded tsf =>
      match baseByName base tsf.baseName with
      | none =>
        if tsf.override.nodeType ≠ "" then expanded ++ [standaloneSpec tenant.id tsf]
        else expanded
      | some baseSvc => expanded ++ [applyOverride tenant.id baseSvc tsf.override])
      expanded) []

/-- A concrete base service for the tenant-expansion counterexample. -/
def kibanaBase : ServiceSpec :=
  { name := "kibana", image := "/var/lib/images/kibana-rootfs.ext4", kernel := ""
    vcpus := 1, memoryMB := 512, kernelArgs := "", nodeType := "web", network := true
    portForwards := [], healthCheck := none, env := []
    links := [{ service := "elasticsearch", envVar := "ES_HOSTS", port := 9200, protocol := "" }]
    metadata := [], antiAffinityGroup := "", crossNodeLinks := [], nodeHostIPEnv := "" }

/-- A concrete overlay that sets its own links, which override mode
ignores. -/
def kibanaOverlay : TenantOverride :=
  { sourceImage := "", nodeType := "", image := "", vcpus := 0, memoryMB := 0
    kernelArgs := "", network := false, portForwards := [], healthCheck := none
    links := [{ service := "other", envVar := "OTHER_URL", port := 1234, protocol := "" }]
    env := [], metadata := [], antiAffinityGroup := "", crossNodeLinks := []
    nodeHostIPEnv := "" }

/-! ## Claim C1 -/

/-- C1: Schedule with a non-empty service list and an empty node list
returns an error, and Schedule with an empty service list and any node
list returns success with an assignment of total size zero. -/
theorem schedule_empty_edge_cases :
    (∀ (services : List ServiceConfig) (existing : String → Option String),
        services ≠ [] →
        ∃ msg, Schedule services [] existing = Except.error msg) ∧
    (∀ (nodes : List Node) (existing : String → Option String),
        ∃ f, Schedule [] nodes existing = Except.ok f ∧ totalAssigned nodes f = 0) := by
  constructor
  · intro services existing hne
    have hlen : services.length > 0 := List.length_pos.mpr hne
    exact ⟨"no active nodes available to schedule " ++ toString services.length ++ " service(s)",
      by simp [Schedule, hlen]⟩
  · intro nodes existing
    refine ⟨fun _ => [], ?_, ?_⟩
    · cases nodes with
      | nil => simp [Schedule]
      | cons n ns =>
        simp [Schedule, phase1, phase2, sortByVCPUsDesc, List.insertionSort, initState,
          Except.map]
    · simp [totalAssigned, List.flatten_eq_nil_iff]

/-- Witness for C1 at concrete inputs: one service with no nodes errors,
and no services with one node succeeds with an empty assignment. -/
theorem schedule_empty_edge_cases_witness :
    ([mkSchedSvc "a" 1 256 ""] ≠ ([] : List ServiceConfig)) ∧
    (∃ msg, Schedule [mkSchedSvc "a" 1 256 ""] [] (fun _ => none) = Except.error msg) ∧
    (∃ f, Schedule [] [⟨"i-1", 8, 4096⟩] (fun _ => none) = Except.ok f ∧
        totalAssigned [⟨"i-1", 8, 4096⟩] f = 0) := by
  refine ⟨by decide, ?_, ?_⟩
  · exact schedule_empty_edge_cases.1 [mkSchedSvc "a" 1 256 ""] (fun _ => none) (by decide)
  · exact schedule_empty_edge_cases.2 [⟨"i-1", 8, 4096⟩] (fun _ => none)

/-! ## Scheduler bookkeeping lemmas -/

/-- Looking a node up in the Go `nodeByID` map yields a member of the
node list carrying that instance ID. -/
theorem nodeByID_mem {nodes : List Node} {id : String} {n : Node}
    (h : nodeByID nodes id = some n) : n ∈ nodes ∧ n.instanceID = id := by
  suffices H : ∀ (acc : String → Option Node),
      (nodes.foldl (fun m n => fun i => if i = n.instanceID then some n else m i) acc) id =
        some n →
      acc id = some n ∨ (n ∈ nodes ∧ n.instanceID = id) by
    rcases H (fun _ => none) h with hacc | hmem
    · cases hacc
    · exact hmem
  clear h
  induction nodes with
  | nil => intro acc hacc; exact Or.inl hacc
  | cons x xs ih =>
    intro acc hacc
    rw [List.foldl_cons] at hacc
    rcases ih _ hacc with hx | hmem
    · by_cases hid : id = x.instanceID
      · rw [if_pos hid] at hx
        cases hx
        exact Or.inr ⟨List.mem_cons_self _ _, hid.symm⟩
      · rw [if_neg hid] at hx
        exact Or.inl hx
    · exact Or.inr ⟨List.mem_cons_of_mem _ hmem.1, hmem.2⟩

/-- `assignedServices` only looks at the map through the inventory's
instance IDs. -/
theorem assignedServices_congr {nodes : List Node} {f g : String → List ServiceConfig}
    (h : ∀ n ∈ nodes, f n.instanceID = g n.instanceID) :
    assignedServices nodes f = assignedServices nodes g := by
  unfold assignedServices
  congr 1
  exact List.map_congr_left h

/-- Appending one service to the per-node list of a present node adds
exactly that service to the assignment multiset. -/
theorem assignedServices_update_perm {nodes : List Node} (f : String → List ServiceConfig)
    {nid : String} (svc : ServiceConfig)
    (hmem : nid ∈ nodes.map (fun n => n.instanceID))
    (hnd : (nodes.map (fun n => n.instanceID)).Nodup) :
    (assignedServices nodes (fun id => if id = nid then f id ++ [svc] else f id)).Perm
      (svc :: assignedServices nodes f) := by
  induction nodes with
  | nil => simp at hmem
  | cons x xs ih =>
    simp only [List.map_cons, List.nodup_cons] at hnd
    have hunf : assignedServices (x :: xs) (fun id => if id = nid then f id ++ [svc] else f id) =
        (if x.instanceID = nid then f x.instanceID ++ [svc] else f x.instanceID) ++
          assignedServices xs (fun id => if id = nid then f id ++ [svc] else f id) := rfl
    have hunf2 : assignedServices (x :: xs) f = f x.instanceID ++ assignedServices xs f := rfl
    rcases List.mem_cons.mp hmem with hx | hxs
    · have hxs' : ∀ y ∈ xs, y.instanceID ≠ nid := by
        intro y hy hcon
        have hmy : y.instanceID ∈ xs.map (fun n => n.instanceID) :=
          List.mem_map_of_mem _ hy
        rw [hcon, hx] at hmy
        exact hnd.1 hmy
      have hcong : assignedServices xs (fun id => if id = nid then f id ++ [svc] else f id) =
          assignedServices xs f := by
        apply assignedServices_congr
        intro y hy
        simp [if_neg (hxs' y hy)]
      rw [hunf, hunf2, hcong, if_pos hx.symm]
      have hstep : (f x.instanceID ++ [svc]) ++ assignedServices xs f =
          f x.instanceID ++ (svc :: assignedServices xs f) := by simp
      rw [hstep]
      exact List.perm_middle
    · have hxne : x.instanceID ≠ nid := by
        intro hcon
        exact hnd.1 (hcon ▸ hxs)
      have ihp := ih hxs hnd.2
      rw [hunf, hunf2, if_neg hxne]
      refine List.Perm.trans (List.Perm.append_left _ ihp) ?_
      exact List.perm_middle

/-- `commit` adds exactly the committed service to the assignment
multiset. -/
theorem assignedServices_commit_perm {nodes : List Node} (st : SchedState)
    {nid : String} (svc : ServiceConfig)
    (hmem : nid ∈ nodes.map (fun n => n.instanceID))
    (hnd : (nodes.map (fun n => n.instanceID)).Nodup) :
    (assignedServices nodes (commit st nid svc).result).Perm
      (svc :: assignedServices nodes st.result) :=
  assignedServices_update_perm st.result svc hmem hnd

/-- Each `bestFit` iteration either keeps the current best or switches to
the scanned node. -/
theorem bestFitStep_best (st : SchedState) (svc : ServiceConfig) (acc : BestAcc) (x : Node) :
    (bestFitStep st svc acc x).best = acc.best ∨
      (bestFitStep st svc acc x).best = x.instanceID := by
  simp only [bestFitStep]
  split
  · exact Or.inl rfl
  · split
    · exact Or.inr rfl
    · exact Or.inl rfl

/-- The `bestFit` fold returns either its seed or the ID of a scanned
node. -/
theorem bestFit_go_mem (st : SchedState) (svc : ServiceConfig) (nodes : List Node)
    (acc : BestAcc) :
    (nodes.foldl (bestFitStep st svc) acc).best = acc.best ∨
      (nodes.foldl (bestFitStep st svc) acc).best ∈ nodes.map (fun n => n.instanceID) := by
  induction nodes generalizing acc with
  | nil => exact Or.inl rfl
  | cons x xs ih =>
    rw [List.foldl_cons]
    rcases ih (bestFitStep st svc acc x) with h | h
    · rcases bestFitStep_best st svc acc x with h2 | h2
      · exact Or.inl (h.trans h2)
      · exact Or.inr (by rw [h, h2]; exact List.mem_cons_self _ _)
    · exact Or.inr (List.mem_cons_of_mem _ h)

/-- A non-empty `bestFit` answer names a node of the inventory. -/
theorem bestFit_mem {nodes : List Node} {svc : ServiceConfig} {st : SchedState}
    (h : bestFit nodes svc st ≠ "") :
    bestFit nodes svc st ∈ nodes.map (fun n => n.instanceID) := by
  rcases bestFit_go_mem st svc nodes { best := "", bestFree := -1, bestHasConflict := true } with
    h2 | h2
  · exact absurd h2 h
  · exact h2

/-- Phase 1 is conservative: committed services plus deferred services
are exactly the processed services. -/
theorem phase1_go_perm (nodes : List Node) (existing : String → Option String)
    (hnd : (nodes.map (fun n => n.instanceID)).Nodup)
    (l : List ServiceConfig) (acc : SchedState × List ServiceConfig) :
    (assignedServices nodes (l.foldl (phase1Step (nodeByID nodes) existing) acc).1.result ++
        (l.foldl (phase1Step (nodeByID nodes) existing) acc).2).Perm
      (assignedServices nodes acc.1.result ++ acc.2 ++ l) := by
  induction l generalizing acc with
  | nil => simp
  | cons svc rest ih =>
    rw [List.foldl_cons]
    have key : (assignedServices nodes (phase1Step (nodeByID nodes) existing acc svc).1.result ++
        (phase1Step (nodeByID nodes) existing acc svc).2).Perm
        ((assignedServices nodes acc.1.result ++ acc.2) ++ [svc]) := by
      unfold phase1Step
      cases hex : existing svc.name with
      | none => simp
      | some nid =>
        cases hby : nodeByID nodes nid with
        | none => simp only [hby]; simp
        | some n =>
          simp only [hby]
          split
          · simp
          · split
            · simp
            · have hm := nodeByID_mem hby
              have hmem : n.instanceID ∈ nodes.map (fun n => n.instanceID) :=
                List.mem_map_of_mem _ hm.1
              refine List.Perm.trans
                (List.Perm.append_right acc.2 (assignedServices_commit_perm acc.1 svc hmem hnd)) ?_
              have hshape : (svc :: assignedServices nodes acc.1.result) ++ acc.2 =
                  svc :: (assignedServices nodes acc.1.result ++ acc.2) := rfl
              rw [hshape]
              exact (List.perm_append_singleton _ _).symm
    refine List.Perm.trans (ih (phase1Step (nodeByID nodes) existing acc svc)) ?_
    refine List.Perm.trans (List.Perm.append_right rest key) ?_
    have hshape2 : ((assignedServices nodes acc.1.result ++ acc.2) ++ [svc]) ++ rest =
        (assignedServices nodes acc.1.result ++ acc.2) ++ (svc :: rest) := by simp
    rw [hshape2]

/-- Phase 2, when it succeeds, adds exactly its input services to the
assignment multiset. -/
theorem phase2_perm {nodes : List Node}
    (hnd : (nodes.map (fun n => n.instanceID)).Nodup) :
    ∀ (l : List ServiceConfig) (st st2 : SchedState),
      phase2 nodes st l = .ok st2 →
      (assignedServices nodes st2.result).Perm (assignedServices nodes st.result ++ l)
  | [], st, st2, h => by
    simp only [phase2, Except.ok.injEq] at h
    subst h
    simp
  | svc :: rest, st, st2, h => by
    rw [phase2] at h
    by_cases htgt : bestFit nodes svc st = ""
    · rw [if_pos htgt] at h
      cases h
    · rw [if_neg htgt] at h
      have hrec := phase2_perm hnd rest (commit st (bestFit nodes svc st) svc) st2 h
      have hmem := bestFit_mem htgt
      refine List.Perm.trans hrec ?_
      refine List.Perm.trans
        (List.Perm.append_right rest (assignedServices_commit_perm st svc hmem hnd)) ?_
      have hshape : (svc :: assignedServices nodes st.result) ++ rest =
          svc :: (assignedServices nodes st.result ++ rest) := rfl
      rw [hshape]
      exact List.perm_middle.symm

/-- A true `scheduleOk` exposes the successful assignment. -/
theorem scheduleOk_exists {services : List ServiceConfig} {nodes : List Node}
    {existing : String → Option String}
    (h : scheduleOk services nodes existing = true) :
    ∃ f, Schedule services nodes existing = Except.ok f := by
  unfold scheduleOk at h
  cases hs : Schedule services nodes existing with
  | error e => rw [hs] at h; cases h
  | ok f => exact ⟨f, rfl⟩

/-! ## Claim C3 -/

/-- C3 (amended): whenever Schedule succeeds on an inventory with
distinct instance IDs, the returned assignment contains every input
service exactly once (its per-node lists, concatenated, are a
permutation of the input), and it is non-empty whenever the input was.
The original claim also promised success whenever the aggregate capacity
covers the totals; the counterexample shows a single service can exceed
every individual node while the aggregate suffices. -/
theorem schedule_ok_assignment_perm
    {services : List ServiceConfig} {nodes : List Node} {existing : String → Option String}
    {f : String → List ServiceConfig}
    (hnd : (nodes.map (fun n => n.instanceID)).Nodup)
    (hok : Schedule services nodes existing = Except.ok f) :
    (assignedServices nodes f).Perm services ∧
      (services ≠ [] → 0 < totalAssigned nodes f) := by
  have hperm : (assignedServices nodes f).Perm services := by
    unfold Schedule at hok
    by_cases hn : nodes.length = 0
    · rw [if_pos hn] at hok
      have hnil : nodes = [] := List.length_eq_zero.mp hn
      by_cases hs : services.length > 0
      · rw [if_pos hs] at hok
        cases hok
      · rw [if_neg hs] at hok
        have hsnil : services = [] := by
          cases services with
          | nil => rfl
          | cons a l => simp at hs
        cases hok
        subst hnil hsnil
        simp [assignedServices]
    · rw [if_neg hn] at hok
      dsimp only at hok
      cases hp2 : phase2 nodes (phase1 (nodeByID nodes) existing services).1
          (sortByVCPUsDesc (phase1 (nodeByID nodes) existing services).2) with
      | error e =>
        rw [hp2] at hok
        simp only [Except.map] at hok
        cases hok
      | ok st2 =>
        rw [hp2] at hok
        simp only [Except.map, Except.ok.injEq] at hok
        subst hok
        have h2 := phase2_perm hnd _ _ _ hp2
        have hsortperm : (sortByVCPUsDesc (phase1 (nodeByID nodes) existing services).2).Perm
            (phase1 (nodeByID nodes) existing services).2 :=
          List.perm_insertionSort _ _
        have h1 := phase1_go_perm nodes existing hnd services (initState, [])
        have hinit : assignedServices nodes (initState, ([] : List ServiceConfig)).1.result = [] := by
          simp [assignedServices, initState]
        rw [hinit] at h1
        simp only [List.nil_append] at h1
        refine List.Perm.trans h2 ?_
        refine List.Perm.trans (List.Perm.append_left _ hsortperm) ?_
        exact h1
  refine ⟨hperm, fun hne => ?_⟩
  have hlen : totalAssigned nodes f = services.length := by
    have := hperm.length_eq
    simpa [totalAssigned, assignedServices] using this
  rw [hlen]
  exact List.length_pos.mpr hne

/-- Witness for C3 at a concrete input: two services on two nodes with a
prior assignment; Schedule succeeds and the assignment is a permutation
of the input. -/
theorem schedule_ok_assignment_perm_witness :
    ∃ f, Schedule [mkSchedSvc "a" 2 512 "", mkSchedSvc "b" 2 512 ""]
        [⟨"i-1", 8, 4096⟩, ⟨"i-2", 8, 4096⟩]
        (fun s => if s = "a" then some "i-2" else if s = "b" then some "i-1" else none) =
        Except.ok f ∧
      (assignedServices [⟨"i-1", 8, 4096⟩, ⟨"i-2", 8, 4096⟩] f).Perm
        [mkSchedSvc "a" 2 512 "", mkSchedSvc "b" 2 512 ""] ∧
      0 < totalAssigned [⟨"i-1", 8, 4096⟩, ⟨"i-2", 8, 4096⟩] f := by
  have hex : scheduleOk [mkSchedSvc "a" 2 512 "", mkSchedSvc "b" 2 512 ""]
      [⟨"i-1", 8, 4096⟩, ⟨"i-2", 8, 4096⟩]
      (fun s => if s = "a" then some "i-2" else if s = "b" then some "i-1" else none) = true := by
    rfl
  obtain ⟨f, hok⟩ := scheduleOk_exists hex
  exact ⟨f, hok, (schedule_ok_assignment_perm (by decide) hok).1,
    (schedule_ok_assignment_perm (by decide) hok).2 (by decide)⟩

/-- Counterexample to C3 as stated: one 3-vCPU service, two 2-vCPU
nodes.  The service list and inventory are non-empty, the aggregate
capacity (4 vCPUs, 400 MB) covers the requested totals (3 vCPUs, 100 MB),
yet Schedule fails: no single node fits the service. -/
theorem schedule_aggregate_capacity_not_sufficient :
    totalVCPUs [mkSchedSvc "a" 3 100 ""] ≤
        totalCapacityVCPUs [⟨"n1", 2, 200⟩, ⟨"n2", 2, 200⟩] ∧
    totalMemMB [mkSchedSvc "a" 3 100 ""] ≤
        totalCapacityMemMB [⟨"n1", 2, 200⟩, ⟨"n2", 2, 200⟩] ∧
    [mkSchedSvc "a" 3 100 ""] ≠ ([] : List ServiceConfig) ∧
    [(⟨"n1", 2, 200⟩ : Node), ⟨"n2", 2, 200⟩] ≠ [] ∧
    Schedule [mkSchedSvc "a" 3 100 ""] [⟨"n1", 2, 200⟩, ⟨"n2", 2, 200⟩] (fun _ => none) =
      Except.error "no node has sufficient capacity for service a" := by
  exact ⟨by decide, by decide, by decide, by decide, by rfl⟩

/-! ## bestFit preference lemmas -/

/-- Each `bestFit` iteration preserves "the recorded conflict flag truly
reflects the conflict status of the recorded node". -/
theorem bestFitStep_flag (st : SchedState) (svc : ServiceConfig) (acc : BestAcc) (x : Node)
    (hW : acc.bestHasConflict = false → hasConflictB st svc acc.best = false) :
    (bestFitStep st svc acc x).bestHasConflict = false →
      hasConflictB st svc (bestFitStep st svc acc x).best = false := by
  simp only [bestFitStep]
  split
  · exact hW
  · split
    · intro h
      simpa [hasConflictB] using h
    · exact hW

/-- Each `bestFit` iteration preserves "a conflict-free node has been
recorded" (scanned nodes carry non-empty IDs). -/
theorem bestFitStep_keep (st : SchedState) (svc : ServiceConfig) (acc : BestAcc) (x : Node)
    (hx : x.instanceID ≠ "")
    (hP : acc.best ≠ "" ∧ acc.bestHasConflict = false) :
    (bestFitStep st svc acc x).best ≠ "" ∧
      (bestFitStep st svc acc x).bestHasConflict = false := by
  simp only [bestFitStep]
  split
  · exact hP
  · split
    · rename_i hcond
      refine ⟨hx, ?_⟩
      rcases hcond with h1 | h2 | h3
      · exact absurd h1 hP.1
      · exact h2.2
      · rw [← h3.1]
        exact hP.2
    · exact hP

/-- Scanning a good node (fits, no conflict, non-empty ID) leaves the
accumulator holding a conflict-free node. -/
theorem bestFitStep_good (st : SchedState) (svc : ServiceConfig) (acc : BestAcc) (x : Node)
    (hgood : goodNode st svc x) :
    (bestFitStep st svc acc x).best ≠ "" ∧
      (bestFitStep st svc acc x).bestHasConflict = false := by
  obtain ⟨hfits, hnc, hx⟩ := hgood
  have hc : (decide (svc.antiAffinityGroup ≠ "") &&
      st.nodeGroups x.instanceID svc.antiAffinityGroup) = false := by
    simpa [hasConflictB] using hnc
  simp only [bestFitStep]
  split
  · rename_i hguard
    rcases hguard with h | h
    · exact absurd hfits.1 (not_le.mpr h)
    · exact absurd hfits.2 (not_le.mpr h)
  · split
    · exact ⟨hx, hc⟩
    · rename_i hcond
      push_neg at hcond
      refine ⟨hcond.1, ?_⟩
      cases hflag : acc.bestHasConflict with
      | false => rfl
      | true => exact absurd hc (hcond.2.1 hflag)

/-- The `bestFit` fold settles on a conflict-free node as soon as one
good node is in scope (or the accumulator already holds one). -/
theorem bestFit_go_pref (st : SchedState) (svc : ServiceConfig) (nodes : List Node)
    (acc : BestAcc)
    (hids : ∀ n ∈ nodes, n.instanceID ≠ "")
    (hW : acc.bestHasConflict = false → hasConflictB st svc acc.best = false)
    (hP : (acc.best ≠ "" ∧ acc.bestHasConflict = false) ∨ ∃ n ∈ nodes, goodNode st svc n) :
    (nodes.foldl (bestFitStep st svc) acc).best ≠ "" ∧
      hasConflictB st svc (nodes.foldl (bestFitStep st svc) acc).best = false := by
  induction nodes generalizing acc with
  | nil =>
    rcases hP with ⟨h1, h2⟩ | ⟨n, hn, _⟩
    · exact ⟨h1, hW h2⟩
    · cases hn
  | cons x xs ih =>
    rw [List.foldl_cons]
    have hW' := bestFitStep_flag st svc acc x hW
    have hids' : ∀ n ∈ xs, n.instanceID ≠ "" := fun n hn => hids n (List.mem_cons_of_mem _ hn)
    rcases hP with hPacc | ⟨n, hn, hgood⟩
    · exact ih _ hids' hW'
        (Or.inl (bestFitStep_keep st svc acc x (hids x (List.mem_cons_self _ _)) hPacc))
    · rcases List.mem_cons.mp hn with heq | hxs
      · subst heq
        exact ih _ hids' hW' (Or.inl (bestFitStep_good st svc acc n hgood))
      · exact ih _ hids' hW' (Or.inr ⟨n, hxs, hgood⟩)

/-- `bestFit` returns a non-empty, conflict-free node whenever a good
candidate exists. -/
theorem bestFit_noconflict {nodes : List Node} {svc : ServiceConfig} {st : SchedState}
    (hids : ∀ n ∈ nodes, n.instanceID ≠ "")
    (hgood : ∃ n ∈ nodes, goodNode st svc n) :
    bestFit nodes svc st ≠ "" ∧ hasConflictB st svc (bestFit nodes svc st) = false := by
  exact bestFit_go_pref st svc nodes { best := "", bestFree := -1, bestHasConflict := true }
    hids (by intro h; simp at h) (Or.inr hgood)

/-- In an inventory of at least two nodes with distinct IDs there is a
node whose ID differs from any given string. -/
theorem exists_second_node {nodes : List Node}
    (hnd : (nodes.map (fun n => n.instanceID)).Nodup) (h2 : 2 ≤ nodes.length) (x : String) :
    ∃ m ∈ nodes, m.instanceID ≠ x := by
  cases nodes with
  | nil => simp at h2
  | cons a t =>
    cases t with
    | nil => simp at h2
    | cons b t2 =>
      by_cases hax : a.instanceID = x
      · refine ⟨b, List.mem_cons_of_mem _ (List.mem_cons_self _ _), fun hbx => ?_⟩
        simp only [List.map_cons, List.nodup_cons] at hnd
        have hin : a.instanceID ∈ b.instanceID :: List.map (fun n => n.instanceID) t2 := by
          rw [hax, ← hbx]
          exact List.mem_cons_self _ _
        exact hnd.1 hin
      · exact ⟨a, List.mem_cons_self _ _, hax⟩

/-- With no prior assignment, two same-group services, at least two
nodes with distinct non-empty IDs, and every node able to host either
service, Phase 2 places the pair on distinct nodes. -/
theorem phase2_pair_distinct (a b : ServiceConfig) (nodes : List Node)
    (hg : a.antiAffinityGroup ≠ "") (hgb : b.antiAffinityGroup = a.antiAffinityGroup)
    (h2 : 2 ≤ nodes.length)
    (hnd : (nodes.map (fun n => n.instanceID)).Nodup)
    (hids : ∀ n ∈ nodes, n.instanceID ≠ "")
    (hcap : ∀ n ∈ nodes, a.vcpus ≤ n.capacityVCPUs ∧ a.memoryMB ≤ n.capacityMemMB ∧
        b.vcpus ≤ n.capacityVCPUs ∧ b.memoryMB ≤ n.capacityMemMB) :
    ∃ st2, phase2 nodes initState [a, b] = Except.ok st2 ∧
      ∃ i j, i ≠ j ∧ a ∈ st2.result i ∧ b ∈ st2.result j ∧
        i ∈ nodes.map (fun n => n.instanceID) ∧ j ∈ nodes.map (fun n => n.instanceID) := by
  obtain ⟨n0, hn0⟩ : ∃ n, n ∈ nodes := by
    cases nodes with
    | nil => simp at h2
    | cons x t => exact ⟨x, List.mem_cons_self _ _⟩
  have good1 : goodNode initState a n0 := by
    refine ⟨⟨?_, ?_⟩, ?_, hids n0 hn0⟩
    · have h0 : initState.usedVCPUs n0.instanceID = 0 := rfl
      have := (hcap n0 hn0).1
      rw [h0]
      omega
    · have h0 : initState.usedMemMB n0.instanceID = 0 := rfl
      have := (hcap n0 hn0).2.1
      rw [h0]
      omega
    · simp [hasConflictB, initState]
  have h1 := bestFit_noconflict hids ⟨n0, hn0, good1⟩
  have t1mem := bestFit_mem h1.1
  obtain ⟨m, hm, hmne⟩ := exists_second_node hnd h2 (bestFit nodes a initState)
  have used_m_v : (commit initState (bestFit nodes a initState) a).usedVCPUs m.instanceID = 0 := by
    show (if m.instanceID = bestFit nodes a initState then
        initState.usedVCPUs m.instanceID + a.vcpus else initState.usedVCPUs m.instanceID) = 0
    rw [if_neg hmne]
    rfl
  have used_m_m : (commit initState (bestFit nodes a initState) a).usedMemMB m.instanceID = 0 := by
    show (if m.instanceID = bestFit nodes a initState then
        initState.usedMemMB m.instanceID + a.memoryMB else initState.usedMemMB m.instanceID) = 0
    rw [if_neg hmne]
    rfl
  have grp_m : (commit initState (bestFit nodes a initState) a).nodeGroups m.instanceID
      b.antiAffinityGroup = false := by
    show (if a.antiAffinityGroup ≠ "" ∧ m.instanceID = bestFit nodes a initState ∧
        b.antiAffinityGroup = a.antiAffinityGroup then true
        else initState.nodeGroups m.instanceID b.antiAffinityGroup) = false
    rw [if_neg]
    · rfl
    · rintro ⟨_, hmt, _⟩
      exact hmne hmt
  have good2 : goodNode (commit initState (bestFit nodes a initState) a) b m := by
    refine ⟨⟨?_, ?_⟩, ?_, hids m hm⟩
    · rw [used_m_v]
      have := (hcap m hm).2.2.1
      omega
    · rw [used_m_m]
      have := (hcap m hm).2.2.2
      omega
    · simp [hasConflictB, grp_m]
  have h2' := bestFit_noconflict hids ⟨m, hm, good2⟩
  have t2mem := bestFit_mem h2'.1
  have ht2ne : bestFit nodes b (commit initState (bestFit nodes a initState) a) ≠
      bestFit nodes a initState := by
    intro heq
    have hgrp : (commit initState (bestFit nodes a initState) a).nodeGroups
        (bestFit nodes a initState) b.antiAffinityGroup = true := by
      show (if a.antiAffinityGroup ≠ "" ∧
          bestFit nodes a initState = bestFit nodes a initState ∧
          b.antiAffinityGroup = a.antiAffinityGroup then true
          else initState.nodeGroups (bestFit nodes a initState) b.antiAffinityGroup) = true
      rw [if_pos ⟨hg, rfl, hgb⟩]
    have hfalse := h2'.2
    rw [heq] at hfalse
    rw [hasConflictB, hgrp] at hfalse
    have hbg : b.antiAffinityGroup ≠ "" := by
      rw [hgb]
      exact hg
    simp [hbg] at hfalse
  have e1 : phase2 nodes initState [a, b] =
      phase2 nodes (commit initState (bestFit nodes a initState) a) [b] := by
    rw [phase2, if_neg h1.1]
  have e2 : phase2 nodes (commit initState (bestFit nodes a initState) a) [b] =
      Except.ok (commit (commit initState (bestFit nodes a initState) a)
        (bestFit nodes b (commit initState (bestFit nodes a initState) a)) b) := by
    rw [phase2, if_neg h2'.1, phase2]
  refine ⟨_, e1.trans e2, bestFit nodes a initState,
    bestFit nodes b (commit initState (bestFit nodes a initState) a), Ne.symm ht2ne,
    ?_, ?_, t1mem, t2mem⟩
  · show a ∈ (if bestFit nodes a initState =
        bestFit nodes b (commit initState (bestFit nodes a initState) a) then
        (commit initState (bestFit nodes a initState) a).result (bestFit nodes a initState) ++ [b]
        else (commit initState (bestFit nodes a initState) a).result (bestFit nodes a initState))
    rw [if_neg (Ne.symm ht2ne)]
    show a ∈ (if bestFit nodes a initState = bestFit nodes a initState then
        initState.result (bestFit nodes a initState) ++ [a]
        else initState.result (bestFit nodes a initState))
    rw [if_pos rfl]
    simp [initState]
  · show b ∈ (if bestFit nodes b (commit initState (bestFit nodes a initState) a) =
        bestFit nodes b (commit initState (bestFit nodes a initState) a) then
        (commit initState (bestFit nodes a initState) a).result
          (bestFit nodes b (commit initState (bestFit nodes a initState) a)) ++ [b]
        else (commit initState (bestFit nodes a initState) a).result
          (bestFit nodes b (commit initState (bestFit nodes a initState) a)))
    rw [if_pos rfl]
    simp

/-- With a single node whose capacity covers both services together,
Phase 2 places two same-group services on that one node: the
anti-affinity requirement degrades to a preference. -/
theorem phase2_single_colocate (a b : ServiceConfig) (n : Node)
    (hva : 0 ≤ a.vcpus) (hvb : 0 ≤ b.vcpus) (hma : 0 ≤ a.memoryMB) (hmb : 0 ≤ b.memoryMB)
    (hsv : a.vcpus + b.vcpus ≤ n.capacityVCPUs) (hsm : a.memoryMB + b.memoryMB ≤ n.capacityMemMB)
    (hid : n.instanceID ≠ "") :
    ∃ st2, phase2 [n] initState [a, b] = Except.ok st2 ∧
      a ∈ st2.result n.instanceID ∧ b ∈ st2.result n.instanceID := by
  have ht1 : bestFit [n] a initState = n.instanceID := by
    unfold bestFit
    rw [List.foldl_cons, List.foldl_nil]
    have hguard : ¬(n.capacityVCPUs - initState.usedVCPUs n.instanceID < a.vcpus ∨
        n.capacityMemMB - initState.usedMemMB n.instanceID < a.memoryMB) := by
      have h0 : initState.usedVCPUs n.instanceID = 0 := rfl
      have h0m : initState.usedMemMB n.instanceID = 0 := rfl
      rw [h0, h0m]
      push_neg
      omega
    simp only [bestFitStep]
    rw [if_neg hguard, if_pos (Or.inl trivial)]
  have husedv : (commit initState n.instanceID a).usedVCPUs n.instanceID = a.vcpus := by
    show (if n.instanceID = n.instanceID then initState.usedVCPUs n.instanceID + a.vcpus
        else initState.usedVCPUs n.instanceID) = a.vcpus
    rw [if_pos rfl]
    show 0 + a.vcpus = a.vcpus
    omega
  have husedm : (commit initState n.instanceID a).usedMemMB n.instanceID = a.memoryMB := by
    show (if n.instanceID = n.instanceID then initState.usedMemMB n.instanceID + a.memoryMB
        else initState.usedMemMB n.instanceID) = a.memoryMB
    rw [if_pos rfl]
    show 0 + a.memoryMB = a.memoryMB
    omega
  have ht2 : bestFit [n] b (commit initState n.instanceID a) = n.instanceID := by
    unfold bestFit
    rw [List.foldl_cons, List.foldl_nil]
    have hguard : ¬(n.capacityVCPUs -
        (commit initState n.instanceID a).usedVCPUs n.instanceID < b.vcpus ∨
        n.capacityMemMB -
        (commit initState n.instanceID a).usedMemMB n.instanceID < b.memoryMB) := by
      rw [husedv, husedm]
      push_neg
      omega
    simp only [bestFitStep]
    rw [if_neg hguard, if_pos (Or.inl trivial)]
  have e1 : phase2 [n] initState [a, b] =
      phase2 [n] (commit initState n.instanceID a) [b] := by
    rw [phase2, ht1, if_neg hid]
  have e2 : phase2 [n] (commit initState n.instanceID a) [b] =
      Except.ok (commit (commit initState n.instanceID a) n.instanceID b) := by
    rw [phase2, ht2, if_neg hid, phase2]
  refine ⟨_, e1.trans e2, ?_, ?_⟩
  · show a ∈ (if n.instanceID = n.instanceID then
        (commit initState n.instanceID a).result n.instanceID ++ [b]
        else (commit initState n.instanceID a).result n.instanceID)
    rw [if_pos rfl]
    show a ∈ (if n.instanceID = n.instanceID then
        initState.result n.instanceID ++ [a] else initState.result n.instanceID) ++ [b]
    rw [if_pos rfl]
    simp [initState]
  · show b ∈ (if n.instanceID = n.instanceID then
        (commit initState n.instanceID a).result n.instanceID ++ [b]
        else (commit initState n.instanceID a).result n.instanceID)
    rw [if_pos rfl]
    simp

/-! ## Claim C4 -/

/-- C4 (amended): anti-affinity under best-fit is a preference, not a
guarantee: the pairwise guarantee holds — with no prior assignment,
exactly two services sharing a group, and at least two nodes (distinct,
non-empty IDs) each able to host either service, Schedule succeeds and
places them on distinct nodes — and with a single available node the
constraint degrades to a preference: both services are placed on that
node.  (With three or more same-group services and fewer nodes, success
with co-location is possible even when more than one node is available;
see the counterexample.) -/
theorem schedule_antiAffinity_amended :
    (∀ (s1 s2 : ServiceConfig) (nodes : List Node),
        s1.antiAffinityGroup ≠ "" → s2.antiAffinityGroup = s1.antiAffinityGroup →
        2 ≤ nodes.length → (nodes.map (fun n => n.instanceID)).Nodup →
        (∀ n ∈ nodes, n.instanceID ≠ "") →
        (∀ n ∈ nodes, s1.vcpus ≤ n.capacityVCPUs ∧ s1.memoryMB ≤ n.capacityMemMB ∧
            s2.vcpus ≤ n.capacityVCPUs ∧ s2.memoryMB ≤ n.capacityMemMB) →
        ∃ f, Schedule [s1, s2] nodes (fun _ => none) = Except.ok f ∧
          ∃ i j, i ≠ j ∧ s1 ∈ f i ∧ s2 ∈ f j ∧
            i ∈ nodes.map (fun n => n.instanceID) ∧ j ∈ nodes.map (fun n => n.instanceID)) ∧
    (∀ (s1 s2 : ServiceConfig) (n : Node),
        0 ≤ s1.vcpus → 0 ≤ s2.vcpus → 0 ≤ s1.memoryMB → 0 ≤ s2.memoryMB →
        s1.vcpus + s2.vcpus ≤ n.capacityVCPUs → s1.memoryMB + s2.memoryMB ≤ n.capacityMemMB →
        n.instanceID ≠ "" →
        ∃ f, Schedule [s1, s2] [n] (fun _ => none) = Except.ok f ∧
          s1 ∈ f n.instanceID ∧ s2 ∈ f n.instanceID) := by
  constructor
  · intro s1 s2 nodes hg1 hg21 h2 hnd hids hcap
    have hlen : ¬nodes.length = 0 := by omega
    have hsched : Schedule [s1, s2] nodes (fun _ => none) =
        (phase2 nodes initState (sortByVCPUsDesc [s1, s2])).map (fun st => st.result) := by
      unfold Schedule
      rw [if_neg hlen]
      rfl
    by_cases hv : s2.vcpus ≤ s1.vcpus
    · have hsort : sortByVCPUsDesc [s1, s2] = [s1, s2] := by
        simp [sortByVCPUsDesc, List.insertionSort, List.orderedInsert, hv]
      obtain ⟨st2, hok, i, j, hij, ha, hb, him, hjm⟩ :=
        phase2_pair_distinct s1 s2 nodes hg1 hg21 h2 hnd hids hcap
      refine ⟨st2.result, ?_, i, j, hij, ha, hb, him, hjm⟩
      rw [hsched, hsort, hok]
      rfl
    · have hsort : sortByVCPUsDesc [s1, s2] = [s2, s1] := by
        simp [sortByVCPUsDesc, List.insertionSort, List.orderedInsert, hv]
      have hg2 : s2.antiAffinityGroup ≠ "" := by
        rw [hg21]
        exact hg1
      have hg12 : s1.antiAffinityGroup = s2.antiAffinityGroup := by
        rw [hg21]
      obtain ⟨st2, hok, i, j, hij, ha, hb, him, hjm⟩ :=
        phase2_pair_distinct s2 s1 nodes hg2 hg12 h2 hnd hids
          (fun n hn => ⟨(hcap n hn).2.2.1, (hcap n hn).2.2.2, (hcap n hn).1, (hcap n hn).2.1⟩)
      refine ⟨st2.result, ?_, j, i, hij.symm, hb, ha, hjm, him⟩
      rw [hsched, hsort, hok]
      rfl
  · intro s1 s2 n hv1 hv2 hm1 hm2 hsv hsm hid
    have hsched : Schedule [s1, s2] [n] (fun _ => none) =
        (phase2 [n] initState (sortByVCPUsDesc [s1, s2])).map (fun st => st.result) := by
      unfold Schedule
      rw [if_neg (by simp : ¬([n] : List Node).length = 0)]
      rfl
    by_cases hv : s2.vcpus ≤ s1.vcpus
    · have hsort : sortByVCPUsDesc [s1, s2] = [s1, s2] := by
        simp [sortByVCPUsDesc, List.insertionSort, List.orderedInsert, hv]
      obtain ⟨st2, hok, ha, hb⟩ := phase2_single_colocate s1 s2 n hv1 hv2 hm1 hm2 hsv hsm hid
      refine ⟨st2.result, ?_, ha, hb⟩
      rw [hsched, hsort, hok]
      rfl
    · have hsort : sortByVCPUsDesc [s1, s2] = [s2, s1] := by
        simp [sortByVCPUsDesc, List.insertionSort, List.orderedInsert, hv]
      obtain ⟨st2, hok, ha, hb⟩ := phase2_single_colocate s2 s1 n hv2 hv1 hm2 hm1
        (by omega) (by omega) hid
      refine ⟨st2.result, ?_, hb, ha⟩
      rw [hsched, hsort, hok]
      rfl

/-- Witness for C4 at concrete inputs: two "es"-group services spread
across two equal nodes, and co-locate on a single node. -/
theorem schedule_antiAffinity_amended_witness :
    (∃ f, Schedule [mkSchedSvc "es1" 4 4096 "es", mkSchedSvc "es2" 4 4096 "es"]
        [⟨"i-1", 64, 65536⟩, ⟨"i-2", 64, 65536⟩] (fun _ => none) = Except.ok f ∧
      ∃ i j, i ≠ j ∧ mkSchedSvc "es1" 4 4096 "es" ∈ f i ∧ mkSchedSvc "es2" 4 4096 "es" ∈ f j ∧
        i ∈ ([⟨"i-1", 64, 65536⟩, ⟨"i-2", 64, 65536⟩] : List Node).map
          (fun n => n.instanceID) ∧
        j ∈ ([⟨"i-1", 64, 65536⟩, ⟨"i-2", 64, 65536⟩] : List Node).map
          (fun n => n.instanceID)) ∧
    (∃ f, Schedule [mkSchedSvc "es1" 4 4096 "es", mkSchedSvc "es2" 4 4096 "es"]
        [⟨"i-1", 64, 65536⟩] (fun _ => none) = Except.ok f ∧
      mkSchedSvc "es1" 4 4096 "es" ∈ f "i-1" ∧ mkSchedSvc "es2" 4 4096 "es" ∈ f "i-1") := by
  constructor
  · exact schedule_antiAffinity_amended.1
      (mkSchedSvc "es1" 4 4096 "es") (mkSchedSvc "es2" 4 4096 "es")
      [⟨"i-1", 64, 65536⟩, ⟨"i-2", 64, 65536⟩]
      (by decide) (by decide) (by decide) (by decide) (by decide) (by decide)
  · exact schedule_antiAffinity_amended.2
      (mkSchedSvc "es1" 4 4096 "es") (mkSchedSvc "es2" 4 4096 "es") ⟨"i-1", 64, 65536⟩
      (by decide) (by decide) (by decide) (by decide) (by decide) (by decide) (by decide)

/-- Counterexample to C4 as stated: three services in the same
anti-affinity group "es" scheduled onto two equal nodes.  Schedule
succeeds, more than one node is available, and yet two same-group
services ("es1" and "es3") land together on node "i-1". -/
theorem schedule_antiAffinity_colocation_despite_two_nodes :
    1 < ([⟨"i-1", 10, 10⟩, ⟨"i-2", 10, 10⟩] : List Node).length ∧
    scheduleAt [mkSchedSvc "es1" 1 1 "es", mkSchedSvc "es2" 1 1 "es", mkSchedSvc "es3" 1 1 "es"]
        [⟨"i-1", 10, 10⟩, ⟨"i-2", 10, 10⟩] (fun _ => none) "i-1" =
      Except.ok [mkSchedSvc "es1" 1 1 "es", mkSchedSvc "es3" 1 1 "es"] ∧
    (mkSchedSvc "es1" 1 1 "es").antiAffinityGroup =
      (mkSchedSvc "es3" 1 1 "es").antiAffinityGroup ∧
    mkSchedSvc "es1" 1 1 "es" ≠ mkSchedSvc "es3" 1 1 "es" := by
  exact ⟨by decide, by rfl, by decide, by decide⟩

/-! ## Tokenisation lemmas -/

/-- Splitting at a separator occurrence splits the surrounding chunks. -/
theorem splitOnP_append_sep {α : Type} (p : α → Bool) (c : α) (hc : p c = true)
    (xs ys : List α) :
    (xs ++ c :: ys).splitOnP p = xs.splitOnP p ++ ys.splitOnP p := by
  induction xs with
  | nil => simp [List.splitOnP_cons, hc, List.splitOnP_nil]
  | cons x t ih =>
    by_cases hx : p x = true
    · simp [List.splitOnP_cons, hx, ih]
    · have hx' : p x = false := by
        cases hpx : p x
        · rfl
        · exact absurd hpx hx
      simp only [List.cons_append, List.splitOnP_cons, hx', Bool.false_eq_true, if_false, ih]
      cases hsp : t.splitOnP p with
      | nil => exact absurd hsp (List.splitOnP_ne_nil _ _)
      | cons h tl => simp [List.modifyHead]

/-- Chunks produced by `splitOnP` contain no separator. -/
theorem mem_splitOnP_no_sep {α : Type} (p : α → Bool) :
    ∀ (l : List α) (w : List α), w ∈ l.splitOnP p → ∀ x ∈ w, p x = false := by
  intro l
  induction l with
  | nil =>
    intro w hw x hx
    rw [List.splitOnP_nil] at hw
    simp only [List.mem_singleton] at hw
    subst hw
    simp at hx
  | cons a t ih =>
    intro w hw x hx
    rw [List.splitOnP_cons] at hw
    by_cases ha : p a = true
    · rw [if_pos ha] at hw
      rcases List.mem_cons.mp hw with rfl | hw'
      · simp at hx
      · exact ih w hw' x hx
    · have ha' : p a = false := by
        cases hpa : p a
        · rfl
        · exact absurd hpa ha
      rw [if_neg ha] at hw
      cases hsp : t.splitOnP p with
      | nil => exact absurd hsp (List.splitOnP_ne_nil _ _)
      | cons h tl =>
        rw [hsp] at hw
        simp only [List.modifyHead] at hw
        rcases List.mem_cons.mp hw with rfl | hw'
        · rcases List.mem_cons.mp hx with rfl | hx'
          · exact ha'
          · exact ih h (by rw [hsp]; exact List.mem_cons_self _ _) x hx'
        · exact ih w (by rw [hsp]; exact List.mem_cons_of_mem _ hw') x hx

/-- `wordsP` distributes over a whitespace occurrence. -/
theorem wordsP_append_sep {c : Char} (hc : c.isWhitespace = true) (xs ys : List Char) :
    wordsP (xs ++ c :: ys) = wordsP xs ++ wordsP ys := by
  unfold wordsP
  rw [splitOnP_append_sep _ c hc, List.filter_append]

/-- A non-empty whitespace-free character list is a single word. -/
theorem wordsP_no_ws {l : List Char} (hne : l ≠ []) (h : ∀ c ∈ l, ¬c.isWhitespace) :
    wordsP l = [l] := by
  unfold wordsP
  rw [List.splitOnP_eq_single _ _ h]
  simp [hne]

/-- Every word of `wordsP` is non-empty and whitespace-free. -/
theorem wordsP_mem {l w : List Char} (hw : w ∈ wordsP l) :
    w ≠ [] ∧ ∀ c ∈ w, ¬c.isWhitespace := by
  unfold wordsP at hw
  have h1 := List.of_mem_filter hw
  have h2 := List.mem_of_mem_filter hw
  refine ⟨by simpa using h1, fun c hc => ?_⟩
  have := mem_splitOnP_no_sep _ l w h2 c hc
  simp [this]

/-- `fields` of the empty string. -/
theorem fields_nil : fields "" = [] := by
  simp [fields, wordsP, List.splitOnP_nil]

/-- `fields` of a single well-formed token. -/
theorem fields_wfTok {arg : String} (h : wfTok arg) : fields arg = [arg] := by
  unfold fields
  rw [wordsP_no_ws h.1 h.2]
  rfl

/-- Every token of `fields` is well formed. -/
theorem fields_mem_wf {s tok : String} (h : tok ∈ fields s) : wfTok tok := by
  unfold fields at h
  rcases List.mem_map.mp h with ⟨w, hw, rfl⟩
  have := wordsP_mem hw
  exact ⟨by simpa using this.1, this.2⟩

/-- `fields` distributes over a single-space join. -/
theorem fields_append_space (s t : String) :
    fields (s ++ " " ++ t) = fields s ++ fields t := by
  have hdata : (s ++ " " ++ t).data = s.data ++ ' ' :: t.data := by
    have h1 : (s ++ " " ++ t).data = s.data ++ " ".data ++ t.data := by
      rw [String.data_append, String.data_append]
    rw [h1]
    have h2 : (" " : String).data = [' '] := rfl
    rw [h2, List.append_assoc]
    rfl
  unfold fields
  rw [hdata, wordsP_append_sep (by decide), List.map_append]

/-- `fields` recovers the parts of a single-space join of well-formed
tokens. -/
theorem fields_joinSp : ∀ (parts : List String), (∀ x ∈ parts, wfTok x) →
    fields (joinSp parts) = parts := by
  intro parts
  induction parts with
  | nil => intro _; exact fields_nil
  | cons p rest ih =>
    intro h
    cases rest with
    | nil => exact fields_wfTok (h p (List.mem_cons_self _ _))
    | cons q r =>
      have hjoin : joinSp (p :: q :: r) = p ++ " " ++ joinSp (q :: r) := rfl
      rw [hjoin, fields_append_space, fields_wfTok (h p (List.mem_cons_self _ _)),
        ih (fun x hx => h x (List.mem_cons_of_mem _ hx))]
      rfl

/-- `tokenInsert` with no separator appends. -/
theorem tokenInsert_no_sep : ∀ {toks : List String}, "--" ∉ toks → ∀ (arg : String),
    tokenInsert toks arg = toks ++ [arg] := by
  intro toks
  induction toks with
  | nil => intro _ arg; rfl
  | cons t ts ih =>
    intro h arg
    have ht : t ≠ "--" := fun hc => h (hc ▸ List.mem_cons_self _ _)
    have hts : "--" ∉ ts := fun hc => h (List.mem_cons_of_mem _ hc)
    simp [tokenInsert, if_neg (Ne.symm ht ∘ Eq.symm), ht, ih hts]

/-- `tokenInsert` places the argument right before the first separator. -/
theorem tokenInsert_sep : ∀ {pre : List String}, "--" ∉ pre → ∀ (post : List String)
    (arg : String), tokenInsert (pre ++ "--" :: post) arg = pre ++ arg :: "--" :: post := by
  intro pre
  induction pre with
  | nil => intro _ post arg; simp [tokenInsert]
  | cons p ps ih =>
    intro h post arg
    have hp : p ≠ "--" := fun hc => h (hc ▸ List.mem_cons_self _ _)
    have hps : "--" ∉ ps := fun hc => h (List.mem_cons_of_mem _ hc)
    simp [tokenInsert, hp, ih hps]

/-- Members of a `tokenInsert` result come from the tokens or are the
inserted argument. -/
theorem tokenInsert_mem : ∀ {toks : List String} {arg x : String},
    x ∈ tokenInsert toks arg → x ∈ toks ∨ x = arg := by
  intro toks
  induction toks with
  | nil =>
    intro arg x hx
    simp [tokenInsert] at hx
    exact Or.inr hx
  | cons t ts ih =>
    intro arg x hx
    by_cases ht : t = "--"
    · rw [tokenInsert, if_pos ht] at hx
      rcases List.mem_cons.mp hx with rfl | hx'
      · exact Or.inr rfl
      · exact Or.inl hx'
    · rw [tokenInsert, if_neg ht] at hx
      rcases List.mem_cons.mp hx with rfl | hx'
      · exact Or.inl (List.mem_cons_self _ _)
      · rcases ih hx' with h | h
        · exact Or.inl (List.mem_cons_of_mem _ h)
        · exact Or.inr h

/-- `insertKernelArg`, seen through `fields`, is `tokenInsert`. -/
theorem fields_insertKernelArg (ka arg : String) (harg : wfTok arg) :
    fields (insertKernelArg ka arg) = tokenInsert (fields ka) arg := by
  unfold insertKernelArg
  by_cases hka : ka = ""
  · rw [if_pos hka]
    subst hka
    rw [fields_wfTok harg, fields_nil]
    rfl
  · rw [if_neg hka]
    by_cases hsep : (fields ka).any (fun part => part = "--") = true
    · rw [if_pos hsep]
      refine fields_joinSp _ (fun x hx => ?_)
      rcases tokenInsert_mem hx with h | rfl
      · exact fields_mem_wf h
      · exact harg
    · rw [if_neg hsep]
      have hnot : "--" ∉ fields ka := by
        intro hmem
        exact hsep (List.any_eq_true.mpr ⟨"--", hmem, by simp⟩)
      rw [fields_append_space, fields_wfTok harg, tokenInsert_no_sep hnot]

/-- Folding separator-free insertions over separator-free tokens
appends in order. -/
theorem foldl_tokenInsert_no_sep : ∀ (args : List String) (toks : List String),
    "--" ∉ toks → (∀ a ∈ args, a ≠ "--") →
    args.foldl tokenInsert toks = toks ++ args := by
  intro args
  induction args with
  | nil => intro toks _ _; simp
  | cons a t ih =>
    intro toks hts has
    rw [List.foldl_cons, tokenInsert_no_sep hts a]
    have hts' : "--" ∉ toks ++ [a] := by
      intro hc
      rcases List.mem_append.mp hc with h | h
      · exact hts h
      · have ha : "--" = a := by simpa using h
        exact has a (List.mem_cons_self _ _) ha.symm
    rw [ih (toks ++ [a]) hts' (fun x hx => has x (List.mem_cons_of_mem _ hx))]
    simp

/-- Folding insertions with a separator present keeps every inserted
token, in order, right before the separator. -/
theorem foldl_tokenInsert_sep : ∀ (args : List String) (pre post : List String),
    "--" ∉ pre → (∀ a ∈ args, a ≠ "--") →
    args.foldl tokenInsert (pre ++ "--" :: post) = pre ++ args ++ "--" :: post := by
  intro args
  induction args with
  | nil => intro pre post _ _; simp
  | cons a t ih =>
    intro pre post hpre has
    rw [List.foldl_cons, tokenInsert_sep hpre post a]
    have hshape : pre ++ a :: "--" :: post = (pre ++ [a]) ++ "--" :: post := by simp
    rw [hshape]
    have hpre' : "--" ∉ pre ++ [a] := by
      intro hc
      rcases List.mem_append.mp hc with h | h
      · exact hpre h
      · have ha : "--" = a := by simpa using h
        exact has a (List.mem_cons_self _ _) ha.symm
    rw [ih (pre ++ [a]) post hpre' (fun x hx => has x (List.mem_cons_of_mem _ hx))]
    simp

/-- Folding `insertKernelArg` over well-formed arguments, seen through
`fields`, is the token-level fold. -/
theorem fields_foldl_insertKernelArg : ∀ (args : List String), (∀ a ∈ args, wfTok a) →
    ∀ (ka : String), fields (args.foldl insertKernelArg ka) = args.foldl tokenInsert (fields ka) := by
  intro args
  induction args with
  | nil => intro _ ka; rfl
  | cons a t ih =>
    intro h ka
    rw [List.foldl_cons, List.foldl_cons,
      ih (fun x hx => h x (List.mem_cons_of_mem _ hx)) (insertKernelArg ka a),
      fields_insertKernelArg ka a (h a (List.mem_cons_self _ _))]

/-- `lexLe` is total. -/
theorem lexLe_total : ∀ xs ys : List Char, lexLe xs ys = true ∨ lexLe ys xs = true := by
  intro xs
  induction xs with
  | nil => intro ys; exact Or.inl rfl
  | cons a as ih =>
    intro ys
    cases ys with
    | nil => exact Or.inr rfl
    | cons b bs =>
      by_cases hab : a = b
      · subst hab
        rcases ih bs with h | h
        · exact Or.inl (by simp [lexLe, h])
        · exact Or.inr (by simp [lexLe, h])
      · rcases lt_or_gt_of_ne hab with h | h
        · exact Or.inl (by simp [lexLe, hab, h])
        · exact Or.inr (by simp [lexLe, Ne.symm hab, h])

/-- `lexLe` is transitive. -/
theorem lexLe_trans : ∀ xs ys zs : List Char,
    lexLe xs ys = true → lexLe ys zs = true → lexLe xs zs = true := by
  intro xs
  induction xs with
  | nil => intro ys zs _ _; rfl
  | cons a as ih =>
    intro ys zs hxy hyz
    cases ys with
    | nil => simp [lexLe] at hxy
    | cons b bs =>
      cases zs with
      | nil => simp [lexLe] at hyz
      | cons c cs =>
        by_cases hab : a = b
        · subst hab
          by_cases hbc : a = c
          · subst hbc
            simp only [lexLe, if_pos rfl] at hxy hyz ⊢
            exact ih bs cs hxy hyz
          · simp only [lexLe, if_pos rfl] at hxy
            simp only [lexLe, if_neg hbc] at hyz ⊢
            exact hyz
        · by_cases hbc : b = c
          · subst hbc
            simp only [lexLe, if_neg hab] at hxy ⊢
            exact hxy
          · simp only [lexLe, if_neg hab] at hxy
            simp only [lexLe, if_neg hbc] at hyz
            by_cases hac : a = c
            · subst hac
              have h1 : a < b := by simpa using hxy
              have h2 : b < a := by simpa using hyz
              exact absurd (h1.trans h2) (lt_irrefl a)
            · have h1 : a < b := by simpa using hxy
              have h2 : b < c := by simpa using hyz
              simp [lexLe, hac, h1.trans h2]

/-- The character list of an env token, decomposed. -/
theorem envToken_data (k v : String) :
    (envToken k v).data = "firework.env.".data ++ (k.data ++ ("=".data ++ v.data)) := by
  unfold envToken
  rw [String.data_append, String.data_append, String.data_append]
  simp [List.append_assoc]

/-- An env token is never the "--" separator. -/
theorem envToken_ne_sep (k v : String) : envToken k v ≠ "--" := by
  intro h
  have hd := congrArg String.data h
  rw [envToken_data] at hd
  have hlit : ("firework.env." : String).data = 'f' :: "irework.env.".data := rfl
  have hsep : ("--" : String).data = ['-', '-'] := rfl
  rw [hlit, hsep] at hd
  simp only [List.cons_append, List.cons.injEq] at hd
  exact absurd hd.1 (by decide)

/-- An env token built from whitespace-free key and value is a
well-formed token. -/
theorem envToken_wf {k v : String} (hk : ∀ c ∈ k.data, ¬c.isWhitespace)
    (hv : ∀ c ∈ v.data, ¬c.isWhitespace) : wfTok (envToken k v) := by
  constructor
  · rw [envToken_data]
    simp
  · intro c hc
    rw [envToken_data] at hc
    rcases List.mem_append.mp hc with h | h
    · exact (by decide : ∀ c ∈ ("firework.env." : String).data, ¬c.isWhitespace) c h
    · rcases List.mem_append.mp h with h2 | h2
      · exact hk c h2
      · rcases List.mem_append.mp h2 with h3 | h3
        · exact (by decide : ∀ c ∈ ("=" : String).data, ¬c.isWhitespace) c h3
        · exact hv c h3

/-- A successful `List.lookup` finds a pair of the list with the looked
up key. -/
theorem lookup_mem_pair : ∀ {env : List (String × String)} {k v : String},
    env.lookup k = some v → (k, v) ∈ env := by
  intro env
  induction env with
  | nil => intro k v h; cases h
  | cons p t ih =>
    intro k v h
    obtain ⟨a, b⟩ := p
    by_cases hk : k = a
    · subst hk
      simp [List.lookup] at h
      subst h
      exact List.mem_cons_self _ _
    · have hbeq : (k == a) = false := beq_false_of_ne hk
      simp only [List.lookup, hbeq] at h
      exact List.mem_cons_of_mem _ (ih h)

/-! ## Claim C6 -/

/-- C6: per env entry, one firework.env.KEY=VALUE token is emitted into
the kernel arguments, in ascending key order (the key list is a sorted
permutation of the env keys), inserted before the first "--" token when
one exists and appended at the end otherwise; the keys and values are
assumed whitespace-free, as a single Go Fields token must be. -/
theorem injectEnvVars_token_rule (svc : ServiceConfig)
    (hwf : ∀ p ∈ svc.env,
        (∀ c ∈ p.1.data, ¬c.isWhitespace) ∧ (∀ c ∈ p.2.data, ¬c.isWhitespace)) :
    ((sortStrings (svc.env.map (fun p => p.1))).Perm (svc.env.map (fun p => p.1)) ∧
      List.Sorted (fun a b : String => lexLe a.data b.data = true)
        (sortStrings (svc.env.map (fun p => p.1)))) ∧
    ("--" ∉ fields svc.kernelArgs →
      fields (injectEnvVarsSvc svc).kernelArgs = fields svc.kernelArgs ++ envTokens svc) ∧
    (∀ pre post, fields svc.kernelArgs = pre ++ "--" :: post → "--" ∉ pre →
      fields (injectEnvVarsSvc svc).kernelArgs = pre ++ envTokens svc ++ "--" :: post) := by
  have hperm := List.perm_insertionSort
    (fun a b : String => lexLe a.data b.data = true) (svc.env.map (fun p => p.1))
  have hsorted : List.Sorted (fun a b : String => lexLe a.data b.data = true)
      (sortStrings (svc.env.map (fun p => p.1))) := by
    haveI : IsTotal String (fun a b : String => lexLe a.data b.data = true) :=
      ⟨fun a b => lexLe_total a.data b.data⟩
    haveI : IsTrans String (fun a b : String => lexLe a.data b.data = true) :=
      ⟨fun a b c hab hbc => lexLe_trans a.data b.data c.data hab hbc⟩
    exact List.sorted_insertionSort _ _
  have htoks_wf : ∀ tok ∈ envTokens svc, wfTok tok := by
    intro tok htok
    rcases List.mem_map.mp htok with ⟨k, hk, rfl⟩
    have hkmem : k ∈ svc.env.map (fun p => p.1) := hperm.subset hk
    rcases List.mem_map.mp hkmem with ⟨p, hp, rfl⟩
    refine envToken_wf (hwf p hp).1 ?_
    unfold envLookup
    cases hl : svc.env.lookup p.1 with
    | none => simp
    | some v =>
      have hmem := lookup_mem_pair hl
      exact (hwf (p.1, v) hmem).2
  have htoks_ne : ∀ tok ∈ envTokens svc, tok ≠ "--" := by
    intro tok htok
    rcases List.mem_map.mp htok with ⟨k, _, rfl⟩
    exact envToken_ne_sep _ _
  by_cases henv : svc.env.length = 0
  · have henv' : svc.env = [] := List.length_eq_zero.mp henv
    have hid : injectEnvVarsSvc svc = svc := by
      unfold injectEnvVarsSvc
      rw [if_pos henv]
    have htok : envTokens svc = [] := by
      unfold envTokens
      rw [henv']
      rfl
    refine ⟨⟨hperm, hsorted⟩, fun _ => ?_, fun pre post hsplit _ => ?_⟩
    · rw [hid, htok, List.append_nil]
    · rw [hid, htok, hsplit, List.append_nil]
  · have hka : (injectEnvVarsSvc svc).kernelArgs =
        ((sortStrings (svc.env.map (fun p => p.1))).map
          (fun k => envToken k (envLookup svc.env k))).foldl insertKernelArg svc.kernelArgs := by
      unfold injectEnvVarsSvc
      rw [if_neg henv]
      rw [List.foldl_map]
    have hfs : fields (injectEnvVarsSvc svc).kernelArgs =
        (envTokens svc).foldl tokenInsert (fields svc.kernelArgs) := by
      rw [hka]
      exact fields_foldl_insertKernelArg _ htoks_wf _
    refine ⟨⟨hperm, hsorted⟩, fun hnos => ?_, fun pre post hsplit hpre => ?_⟩
    · rw [hfs, foldl_tokenInsert_no_sep _ _ hnos htoks_ne]
    · rw [hfs, hsplit, foldl_tokenInsert_sep _ _ _ hpre htoks_ne]

/-- Witness for C6 at a concrete service: env {A:1, B:2} with kernel
args "console=ttyS0 -- /app"; the tokens land between "console=ttyS0"
and the "--" separator. -/
theorem injectEnvVars_token_rule_witness :
    fields (injectEnvVarsSvc { mkSchedSvc "web" 1 256 "" with
        env := [("B", "2"), ("A", "1")], kernelArgs := "console=ttyS0 -- /app" }).kernelArgs =
      ["console=ttyS0"] ++ envTokens { mkSchedSvc "web" 1 256 "" with
        env := [("B", "2"), ("A", "1")], kernelArgs := "console=ttyS0 -- /app" } ++
      "--" :: ["/app"] := by
  exact (injectEnvVars_token_rule _ (by decide)).2.2 ["console=ttyS0"] ["/app"]
    (by decide) (by decide)

/-! ## Network assignment lemmas -/

/-- `decDigit` is injective on digits. -/
theorem decDigit_inj (a b : Nat) (ha : a < 10) (hb : b < 10)
    (h : decDigit a = decDigit b) : a = b := by
  interval_cases a <;> interval_cases b <;> revert h <;> decide

/-- `decOctet` is injective on bytes. -/
theorem decOctet_inj {a b : Nat} (ha : a < 256) (hb : b < 256)
    (h : decOctet a = decOctet b) : a = b := by
  unfold decOctet at h
  by_cases ha1 : a < 10 <;> by_cases hb1 : b < 10
  · simp only [if_pos ha1, if_pos hb1, List.cons.injEq, and_true] at h
    exact decDigit_inj a b ha1 hb1 h
  · by_cases hb2 : b < 100 <;> simp [ha1, hb1, hb2] at h
  · by_cases ha2 : a < 100 <;> simp [ha1, hb1, ha2] at h
  · by_cases ha2 : a < 100 <;> by_cases hb2 : b < 100
    · simp only [if_neg ha1, if_pos ha2, if_neg hb1, if_pos hb2, List.cons.injEq,
        and_true] at h
      have h1 := decDigit_inj (a / 10) (b / 10) (by omega) (by omega) h.1
      have h2 := decDigit_inj (a % 10) (b % 10) (by omega) (by omega) h.2
      omega
    · simp [ha1, hb1, ha2, hb2] at h
    · simp [ha1, hb1, ha2, hb2] at h
    · simp only [if_neg ha1, if_neg ha2, if_neg hb1, if_neg hb2, List.cons.injEq,
        and_true] at h
      have h1 := decDigit_inj (a / 100) (b / 100) (by omega) (by omega) h.1
      have h2 := decDigit_inj (a / 10 % 10) (b / 10 % 10) (by omega) (by omega) h.2.1
      have h3 := decDigit_inj (a % 10) (b % 10) (by omega) (by omega) h.2.2
      omega

/-- `ipString` is injective in the last octet. -/
theorem ipString_inj {o0 o1 o2 a b : Nat} (ha : a < 256) (hb : b < 256)
    (h : ipString o0 o1 o2 a = ipString o0 o1 o2 b) : a = b := by
  have hd := congrArg String.data h
  simp only [ipString] at hd
  have h1 := List.append_cancel_left hd
  injection h1 with _ h2
  exact decOctet_inj ha hb h2

/-- As many guest addresses as networked services. -/
theorem guestIPs_length : ∀ l : List ServiceConfig,
    (guestIPs l).length = (networkedServices l).length := by
  intro l
  induction l with
  | nil => rfl
  | cons x rest ih =>
    cases hnet : x.network with
    | none => simp [guestIPs, networkedServices, List.filter_cons, hnet] at ih ⊢; exact ih
    | some nw => simp [guestIPs, networkedServices, List.filter_cons, hnet] at ih ⊢; exact ih

/-- The `i`-th networked service of the assignment loop's output is the
`i`-th networked input service with guest IP `(o3 + i) % 256`, MAC index
`idx + i + 1`, and the kernel autoconfig token inserted by the "--"
rule unless an "ip=" token was already present. -/
theorem assignLoop_get (o0 o1 o2 : Nat) (gw nm : String) :
    ∀ (services : List ServiceConfig) (idx o3 i : Nat), o3 < 256 →
    ∀ svc, (networkedServices services)[i]? = some svc →
    ∃ nw, svc.network = some nw ∧
      (networkedServices (assignLoop o0 o1 o2 gw nm idx o3 services))[i]? = some
        { svc with
            network := some { nw with
              guestIP := ipString o0 o1 o2 ((o3 + i) % 256)
              guestMAC := "AA:FC:00:00:00:" ++ sprintf02X (idx + i + 1) }
            kernelArgs :=
              if hasKernelArgPrefix svc.kernelArgs "ip=" = true then svc.kernelArgs
              else insertKernelArg svc.kernelArgs
                ("ip=" ++ ipString o0 o1 o2 ((o3 + i) % 256) ++ "::" ++ gw ++ ":" ++ nm ++
                  "::eth0:off") } := by
  intro services
  induction services with
  | nil =>
    intro idx o3 i h3 svc hsvc
    simp [networkedServices] at hsvc
  | cons x rest ih =>
    intro idx o3 i h3 svc hsvc
    cases hnet : x.network with
    | none =>
      have hns : networkedServices (x :: rest) = networkedServices rest := by
        simp [networkedServices, List.filter_cons, hnet]
      have hloop : assignLoop o0 o1 o2 gw nm idx o3 (x :: rest) =
          x :: assignLoop o0 o1 o2 gw nm idx o3 rest := by
        rw [assignLoop, hnet]
      rw [hns] at hsvc
      obtain ⟨nw, hnw, hres⟩ := ih idx o3 i h3 svc hsvc
      refine ⟨nw, hnw, ?_⟩
      rw [hloop]
      have hns2 : networkedServices (x :: assignLoop o0 o1 o2 gw nm idx o3 rest) =
          networkedServices (assignLoop o0 o1 o2 gw nm idx o3 rest) := by
        simp [networkedServices, List.filter_cons, hnet]
      rw [hns2]
      exact hres
    | some nw0 =>
      have hns : networkedServices (x :: rest) = x :: networkedServices rest := by
        simp [networkedServices, List.filter_cons, hnet]
      have hloop : assignLoop o0 o1 o2 gw nm idx o3 (x :: rest) =
          { x with
              network := some { nw0 with
                guestIP := ipString o0 o1 o2 o3
                guestMAC := "AA:FC:00:00:00:" ++ sprintf02X (idx + 1) }
              kernelArgs :=
                if hasKernelArgPrefix x.kernelArgs "ip=" = true then x.kernelArgs
                else insertKernelArg x.kernelArgs
                  ("ip=" ++ ipString o0 o1 o2 o3 ++ "::" ++ gw ++ ":" ++ nm ++
                    "::eth0:off") } ::
            assignLoop o0 o1 o2 gw nm (idx + 1) ((o3 + 1) % 256) rest := by
        rw [assignLoop, hnet]
      rw [hns] at hsvc
      cases i with
      | zero =>
        have hxs : x = svc := by simpa using hsvc
        subst hxs
        refine ⟨nw0, hnet, ?_⟩
        rw [hloop]
        have hns2 : networkedServices ({ x with
            network := some { nw0 with
              guestIP := ipString o0 o1 o2 o3
              guestMAC := "AA:FC:00:00:00:" ++ sprintf02X (idx + 1) }
            kernelArgs :=
              if hasKernelArgPrefix x.kernelArgs "ip=" = true then x.kernelArgs
              else insertKernelArg x.kernelArgs
                ("ip=" ++ ipString o0 o1 o2 o3 ++ "::" ++ gw ++ ":" ++ nm ++
                  "::eth0:off") } ::
            assignLoop o0 o1 o2 gw nm (idx + 1) ((o3 + 1) % 256) rest) =
            { x with
              network := some { nw0 with
                guestIP := ipString o0 o1 o2 o3
                guestMAC := "AA:FC:00:00:00:" ++ sprintf02X (idx + 1) }
              kernelArgs :=
                if hasKernelArgPrefix x.kernelArgs "ip=" = true then x.kernelArgs
                else insertKernelArg x.kernelArgs
                  ("ip=" ++ ipString o0 o1 o2 o3 ++ "::" ++ gw ++ ":" ++ nm ++
                    "::eth0:off") } ::
            networkedServices (assignLoop o0 o1 o2 gw nm (idx + 1) ((o3 + 1) % 256) rest) := by
          simp [networkedServices, List.filter_cons]
        rw [hns2]
        have e1 : (o3 + 0) % 256 = o3 := by omega
        have e2 : idx + 0 + 1 = idx + 1 := by omega
        rw [e1, e2]
        exact List.getElem?_cons_zero
      | succ j =>
        simp only [List.getElem?_cons_succ] at hsvc
        obtain ⟨nw, hnw, hres⟩ := ih (idx + 1) ((o3 + 1) % 256) j (by omega) svc hsvc
        refine ⟨nw, hnw, ?_⟩
        rw [hloop]
        have hns2 : ∀ (y : ServiceConfig) (l : List ServiceConfig), y.network.isSome = true →
            networkedServices (y :: l) = y :: networkedServices l := by
          intro y l hy
          simp [networkedServices, List.filter_cons, hy]
        rw [hns2 _ _ (by simp)]
        simp only [List.getElem?_cons_succ]
        have e3 : ((o3 + 1) % 256 + j) % 256 = (o3 + (j + 1)) % 256 := by omega
        have e4 : idx + 1 + j + 1 = idx + (j + 1) + 1 := by omega
        rw [e3, e4] at hres
        exact hres

/-- The guest addresses produced by the assignment loop: base octets
with last octet `(o3 + j) % 256` for the `j`-th networked service. -/
theorem guestIPs_assignLoop (o0 o1 o2 : Nat) (gw nm : String) :
    ∀ (services : List ServiceConfig) (idx o3 : Nat), o3 < 256 →
    guestIPs (assignLoop o0 o1 o2 gw nm idx o3 services) =
      (List.range (networkedServices services).length).map
        (fun j => ipString o0 o1 o2 ((o3 + j) % 256)) := by
  intro services
  induction services with
  | nil => intro idx o3 _; rfl
  | cons x rest ih =>
    intro idx o3 h3
    cases hnet : x.network with
    | none =>
      have hloop : assignLoop o0 o1 o2 gw nm idx o3 (x :: rest) =
          x :: assignLoop o0 o1 o2 gw nm idx o3 rest := by
        rw [assignLoop, hnet]
      rw [hloop]
      have h1 : guestIPs (x :: assignLoop o0 o1 o2 gw nm idx o3 rest) =
          guestIPs (assignLoop o0 o1 o2 gw nm idx o3 rest) := by
        simp [guestIPs, hnet]
      have h2 : networkedServices (x :: rest) = networkedServices rest := by
        simp [networkedServices, List.filter_cons, hnet]
      rw [h1, h2, ih idx o3 h3]
    | some nw0 =>
      have hloop : assignLoop o0 o1 o2 gw nm idx o3 (x :: rest) =
          { x with
              network := some { nw0 with
                guestIP := ipString o0 o1 o2 o3
                guestMAC := "AA:FC:00:00:00:" ++ sprintf02X (idx + 1) }
              kernelArgs :=
                if hasKernelArgPrefix x.kernelArgs "ip=" = true then x.kernelArgs
                else insertKernelArg x.kernelArgs
                  ("ip=" ++ ipString o0 o1 o2 o3 ++ "::" ++ gw ++ ":" ++ nm ++
                    "::eth0:off") } ::
            assignLoop o0 o1 o2 gw nm (idx + 1) ((o3 + 1) % 256) rest := by
        rw [assignLoop, hnet]
      rw [hloop]
      have h1 : networkedServices (x :: rest) = x :: networkedServices rest := by
        simp [networkedServices, List.filter_cons, hnet]
      rw [h1]
      have hg : guestIPs ({ x with
          network := some { nw0 with
            guestIP := ipString o0 o1 o2 o3
            guestMAC := "AA:FC:00:00:00:" ++ sprintf02X (idx + 1) }
          kernelArgs :=
            if hasKernelArgPrefix x.kernelArgs "ip=" = true then x.kernelArgs
            else insertKernelArg x.kernelArgs
              ("ip=" ++ ipString o0 o1 o2 o3 ++ "::" ++ gw ++ ":" ++ nm ++
                "::eth0:off") } ::
          assignLoop o0 o1 o2 gw nm (idx + 1) ((o3 + 1) % 256) rest) =
          ipString o0 o1 o2 o3 ::
            guestIPs (assignLoop o0 o1 o2 gw nm (idx + 1) ((o3 + 1) % 256) rest) := by
        simp [guestIPs]
      rw [hg, ih (idx + 1) ((o3 + 1) % 256) (Nat.mod_lt _ (by omega))]
      rw [List.length_cons, List.range_succ_eq_map, List.map_cons, List.map_map]
      refine congrArg₂ List.cons ?_ ?_
      · exact congrArg (ipString o0 o1 o2) (by omega)
      · apply List.map_congr_left
        intro j _
        simp only [Function.comp]
        exact congrArg (ipString o0 o1 o2) (by omega)

/-! ## Claim C5 -/

/-- C5: with a parsed IPv4 subnet (octets o0.o1.o2), the i-th (0-based)
networked service receives guest address o0.o1.o2.(2+i) and MAC
AA:FC:00:00:00:&lt;i+1 as two uppercase hex digits&gt;, and the token
ip=&lt;guest&gt;::&lt;gateway&gt;:&lt;dotted-mask&gt;::eth0:off is inserted into its
kernel arguments by the before-the-"--" rule unless they already carry
an ip= token before the separator.  (The bound 2 + i ≤ 255 keeps the
last octet a real octet; claim C10 covers the wrap-around.) -/
theorem assignNetworking_deterministic (cfg : AgentNetConfig) (services : List ServiceConfig)
    (o0 o1 o2 om : Nat) (i : Nat) (svc : ServiceConfig)
    (hsub : cfg.vmSubnet ≠ "")
    (hparse : parseCIDR4 cfg.vmSubnet = some (o0, o1, o2, om))
    (hi : 2 + i ≤ 255)
    (hsvc : (networkedServices services)[i]? = some svc) :
    ∃ nw, svc.network = some nw ∧
      (networkedServices (assignNetworking cfg services))[i]? = some
        { svc with
            network := some { nw with
              guestIP := ipString o0 o1 o2 (2 + i)
              guestMAC := "AA:FC:00:00:00:" ++ sprintf02X (i + 1) }
            kernelArgs :=
              if hasKernelArgPrefix svc.kernelArgs "ip=" = true then svc.kernelArgs
              else insertKernelArg svc.kernelArgs
                ("ip=" ++ ipString o0 o1 o2 (2 + i) ++ "::" ++ stripCIDR cfg.vmGateway ++ ":" ++
                  SubnetMaskBits cfg.vmSubnet ++ "::eth0:off") } := by
  have hassign : assignNetworking cfg services =
      assignLoop o0 o1 o2 (stripCIDR cfg.vmGateway) (SubnetMaskBits cfg.vmSubnet) 0 2 services := by
    unfold assignNetworking
    rw [if_neg hsub, hparse]
  obtain ⟨nw, hnw, hres⟩ :=
    assignLoop_get o0 o1 o2 (stripCIDR cfg.vmGateway) (SubnetMaskBits cfg.vmSubnet)
      services 0 2 i (by omega) svc hsvc
  have e1 : (2 + i) % 256 = 2 + i := Nat.mod_eq_of_lt (by omega)
  have e2 : 0 + i + 1 = i + 1 := by omega
  rw [e1, e2] at hres
  exact ⟨nw, hnw, by rw [hassign]; exact hres⟩

/-- Witness for C5: subnet 172.16.0.0/24, gateway 172.16.0.1, networked
services api, web, worker; the second one (web, i = 1) gets
172.16.0.3 / AA:FC:00:00:00:02 and the matching ip= token. -/
theorem assignNetworking_deterministic_witness :
    ((networkedServices (assignNetworking ⟨"172.16.0.0/24", "172.16.0.1"⟩
        [mkNetSvc "api", mkNetSvc "web", mkNetSvc "worker"]))[1]?).map
      (fun s => (s.network.map (fun nw => (nw.guestIP, nw.guestMAC)), s.kernelArgs)) =
      some (some ("172.16.0.3", "AA:FC:00:00:00:02"),
        "ip=172.16.0.3::172.16.0.1:255.255.255.0::eth0:off") := by
  obtain ⟨nw, hnw, hres⟩ := assignNetworking_deterministic ⟨"172.16.0.0/24", "172.16.0.1"⟩
    [mkNetSvc "api", mkNetSvc "web", mkNetSvc "worker"] 172 16 0 0 1 (mkNetSvc "web")
    (by decide) (by rfl) (by omega) (by rfl)
  rw [hres]
  rfl

/-! ## Claim C10 -/

/-- C10 (amended): with a parsed IPv4 subnet, the assigned guest
addresses within one tick are pairwise distinct if and only if at most
256 services request networking (the last octet runs 2, 3, …, 255, 0, 1
before repeating); the original claim's bound of 254 is too small,
because the wrapped octets 0 and 1 are still distinct from the earlier
ones. -/
theorem assignNetworking_distinct_iff (cfg : AgentNetConfig) (services : List ServiceConfig)
    (o0 o1 o2 om : Nat)
    (hsub : cfg.vmSubnet ≠ "")
    (hparse : parseCIDR4 cfg.vmSubnet = some (o0, o1, o2, om)) :
    (guestIPs (assignNetworking cfg services)).Nodup ↔
      (networkedServices services).length ≤ 256 := by
  have hassign : assignNetworking cfg services =
      assignLoop o0 o1 o2 (stripCIDR cfg.vmGateway) (SubnetMaskBits cfg.vmSubnet) 0 2 services := by
    unfold assignNetworking
    rw [if_neg hsub, hparse]
  have hips : guestIPs (assignNetworking cfg services) =
      (List.range (networkedServices services).length).map
        (fun j => ipString o0 o1 o2 ((2 + j) % 256)) := by
    rw [hassign]
    exact guestIPs_assignLoop o0 o1 o2 _ _ services 0 2 (by omega)
  rw [hips]
  constructor
  · intro hnd
    by_contra hgt
    push_neg at hgt
    have h0 : (0 : Nat) ∈ List.range (networkedServices services).length :=
      List.mem_range.mpr (by omega)
    have h256 : (256 : Nat) ∈ List.range (networkedServices services).length :=
      List.mem_range.mpr (by omega)
    have heq : ipString o0 o1 o2 ((2 + 0) % 256) = ipString o0 o1 o2 ((2 + 256) % 256) :=
      congrArg (ipString o0 o1 o2) (by omega)
    have := List.inj_on_of_nodup_map hnd h0 h256 heq
    omega
  · intro hle
    refine List.Nodup.map_on ?_ (List.nodup_range _)
    intro x hx y hy hxy
    have hx' := List.mem_range.mp hx
    have hy' := List.mem_range.mp hy
    have hmod := ipString_inj (Nat.mod_lt _ (by omega)) (Nat.mod_lt _ (by omega)) hxy
    omega

/-- Witness for C10 at a concrete input: three networked services on
172.16.0.0/24 give pairwise distinct addresses, and 3 ≤ 256. -/
theorem assignNetworking_distinct_iff_witness :
    (guestIPs (assignNetworking ⟨"172.16.0.0/24", "172.16.0.1"⟩
        [mkNetSvc "api", mkNetSvc "web", mkNetSvc "worker"])).Nodup ∧
    (networkedServices [mkNetSvc "api", mkNetSvc "web", mkNetSvc "worker"]).length ≤ 256 := by
  have h := assignNetworking_distinct_iff ⟨"172.16.0.0/24", "172.16.0.1"⟩
    [mkNetSvc "api", mkNetSvc "web", mkNetSvc "worker"] 172 16 0 0 (by decide) (by rfl)
  exact ⟨h.mpr (by decide), by decide⟩

set_option maxRecDepth 8192 in
/-- Counterexample to C10 as stated: 255 networked services — more than
254 — still receive pairwise distinct guest addresses (the 255-th gets
last octet (2 + 254) % 256 = 0, distinct from 2…255). -/
theorem assignNetworking_255_distinct :
    (networkedServices (List.replicate 255 (mkNetSvc "s"))).length = 255 ∧
    254 < (networkedServices (List.replicate 255 (mkNetSvc "s"))).length ∧
    (guestIPs (assignNetworking ⟨"172.16.0.0/24", "172.16.0.1"⟩
        (List.replicate 255 (mkNetSvc "s")))).Nodup := by
  have hlen : (networkedServices (List.replicate 255 (mkNetSvc "s"))).length = 255 := by
    simp [networkedServices, List.filter_replicate, mkNetSvc]
  refine ⟨hlen, by omega, ?_⟩
  have hassign : assignNetworking ⟨"172.16.0.0/24", "172.16.0.1"⟩
      (List.replicate 255 (mkNetSvc "s")) =
      assignLoop 172 16 0 (stripCIDR "172.16.0.1") (SubnetMaskBits "172.16.0.0/24") 0 2
        (List.replicate 255 (mkNetSvc "s")) := by
    unfold assignNetworking
    rw [if_neg (by decide), show parseCIDR4 "172.16.0.0/24" = some (172, 16, 0, 0) from rfl]
  have hips := guestIPs_assignLoop 172 16 0 (stripCIDR "172.16.0.1")
    (SubnetMaskBits "172.16.0.0/24") (List.replicate 255 (mkNetSvc "s")) 0 2 (by omega)
  rw [hassign, hips, hlen]
  refine List.Nodup.map_on ?_ (List.nodup_range _)
  intro x hx y hy hxy
  have hx' := List.mem_range.mp hx
  have hy' := List.mem_range.mp hy
  have hmod := ipString_inj (Nat.mod_lt _ (by omega)) (Nat.mod_lt _ (by omega)) hxy
  omega

/-! ## Claim C2 -/

/-- C2: WriteAll with an empty descriptor list performs no store
mutation at all — it issues no put and no delete — so the bucket
contents, and in particular every previously published descriptor, are
left unchanged. -/
theorem writeAll_empty_noop (pre : String) (objects : List (String × NodeConfig)) :
    WriteAllOps pre objects [] = [] ∧
      applyOps objects (WriteAllOps pre objects []) = objects := by
  constructor
  · rfl
  · rfl

/-! ## Claim C8 -/

/-- Counterexample to C8 as stated: at the threshold (failures reach
retries = 3) with a failing restart callback, the callback is invoked
but the failure count is NOT reset (it stays 3) and the status stays
Unhealthy rather than Unknown. -/
theorem recordResult_restart_error_no_reset :
    recordResult { status := Status.unhealthy, failures := 2, lastError := "x" } 3
        (some "dial tcp: connection refused") (some "restart failed") =
      ({ status := Status.unhealthy, failures := 3,
          lastError := "dial tcp: connection refused" }, true) ∧
    (3 : Int) ≠ 0 ∧ Status.unhealthy ≠ Status.unknown := by
  exact ⟨by decide, by decide, by decide⟩

/-- C8 (amended): when the consecutive failure count reaches the
effective retry threshold (the configured value, or 3 when it is zero),
recordResult invokes the restart callback once; if the callback
succeeds the failure count is reset to zero and the status set to
Unknown, and if it fails the incremented count and the Unhealthy status
are kept. -/
theorem recordResult_threshold (r : HCResult) (retriesCfg : Int) (e : String)
    (restartErr : Option String)
    (hfail : r.failures + 1 ≥ (if retriesCfg = 0 then 3 else retriesCfg)) :
    (recordResult r retriesCfg (some e) restartErr).2 = true ∧
    (restartErr = none →
      (recordResult r retriesCfg (some e) restartErr).1.failures = 0 ∧
      (recordResult r retriesCfg (some e) restartErr).1.status = Status.unknown) ∧
    (∀ msg, restartErr = some msg →
      (recordResult r retriesCfg (some e) restartErr).1.failures = r.failures + 1 ∧
      (recordResult r retriesCfg (some e) restartErr).1.status = Status.unhealthy) := by
  unfold recordResult
  simp only
  rw [if_pos hfail]
  cases restartErr with
  | none => exact ⟨rfl, fun _ => ⟨rfl, rfl⟩, fun msg hmsg => by cases hmsg⟩
  | some msg0 =>
    refine ⟨rfl, ?_, ?_⟩
    · intro hc
      cases hc
    · intro msg hmsg
      exact ⟨rfl, rfl⟩

/-- Witness for C8: two prior failures, threshold 3, failing check,
successful restart — the callback runs, failures reset, status becomes
Unknown. -/
theorem recordResult_threshold_witness :
    (recordResult { status := Status.unhealthy, failures := 2, lastError := "" } 3
        (some "err") none).2 = true ∧
    (recordResult { status := Status.unhealthy, failures := 2, lastError := "" } 3
        (some "err") none).1.failures = 0 ∧
    (recordResult { status := Status.unhealthy, failures := 2, lastError := "" } 3
        (some "err") none).1.status = Status.unknown := by
  have h := recordResult_threshold
    { status := Status.unhealthy, failures := 2, lastError := "" } 3 "err" none (by decide)
  exact ⟨h.1, (h.2.1 rfl).1, (h.2.1 rfl).2⟩

/-! ## Claim C9 -/

/-- `hexDigitB` is injective on hex digits. -/
theorem hexDigitB_inj {a b : Nat} (ha : a < 16) (hb : b < 16)
    (h : hexDigitB a = hexDigitB b) : a = b := by
  unfold hexDigitB at h
  split at h <;> split at h <;> omega

/-- `hex5` is injective below 2^20. -/
theorem hex5_inj {a b : Nat} (ha : a < 1048576) (hb : b < 1048576)
    (h : hex5 a = hex5 b) : a = b := by
  simp only [hex5, List.cons.injEq, and_true] at h
  obtain ⟨h1, h2, h3, h4, h5⟩ := h
  have e1 := hexDigitB_inj (by omega) (by omega) h1
  have e2 := hexDigitB_inj (by omega) (by omega) h2
  have e3 := hexDigitB_inj (by omega) (by omega) h3
  have e4 := hexDigitB_inj (by omega) (by omega) h4
  have e5 := hexDigitB_inj (by omega) (by omega) h5
  omega

/-- Counterexample to C9 as stated: "service-node-4488" and
"service-node-9494" are distinct 17-byte names sharing the 13-byte
common prefix "service-node-", yet their FNV-1a hashes agree on the low
20 bits, so `tapIfname` gives both the same TAP name. -/
theorem tapIfname_collision :
    strBytes "service-node-4488" ≠ strBytes "service-node-9494" ∧
    11 < (strBytes "service-node-4488").length ∧
    11 < (strBytes "service-node-9494").length ∧
    (strBytes "service-node-4488").take 13 = (strBytes "service-node-9494").take 13 ∧
    tapIfname (strBytes "service-node-4488") = tapIfname (strBytes "service-node-9494") := by
  exact ⟨by decide, by decide, by decide, by decide, by decide⟩

/-- C9 (amended): for two names both longer than 11 bytes, the TAP
names agree exactly when the first six bytes agree and the FNV-1a
hashes agree on their low 20 bits; so distinct long names with a shared
prefix get distinct TAP names unless their 20-bit hash fragments
collide (which is possible — see the counterexample — so the name is
collision-resistant, not collision-free). -/
theorem tapIfname_long_names (n1 n2 : List Nat) (h1 : 11 < n1.length) (h2 : 11 < n2.length) :
    tapIfname n1 = tapIfname n2 ↔
      (n1.take 6 = n2.take 6 ∧ fnv1a32 n1 % 1048576 = fnv1a32 n2 % 1048576) := by
  unfold tapIfname
  rw [if_neg (by omega), if_neg (by omega)]
  constructor
  · intro h
    have h3 := List.append_cancel_left h
    have hlen : (n1.take 6).length = (n2.take 6).length := by
      rw [List.length_take, List.length_take]
      omega
    obtain ⟨htake, hhex⟩ := List.append_inj h3 hlen
    exact ⟨htake, hex5_inj (Nat.mod_lt _ (by omega)) (Nat.mod_lt _ (by omega)) hhex⟩
  · intro ⟨htake, hhash⟩
    rw [htake, hhash]

/-- Witness for C9 at the example pair from the source comment:
"tenant-3-elasticsearch-data-1" and "tenant-3-elasticsearch-data-2"
share a long prefix but their 20-bit hash fragments differ, so the TAP
names differ. -/
theorem tapIfname_long_names_witness :
    tapIfname (strBytes "tenant-3-elasticsearch-data-1") ≠
      tapIfname (strBytes "tenant-3-elasticsearch-data-2") := by
  intro heq
  have h := (tapIfname_long_names (strBytes "tenant-3-elasticsearch-data-1")
    (strBytes "tenant-3-elasticsearch-data-2") (by decide) (by decide)).mp heq
  exact absurd h.2 (by decide)

/-! ## Claim C7 -/

/-- Overwriting the entries holding key `k` makes `lookup k` find the
new value (when the key is present). -/
theorem lookup_overwrite {k : String} (v : String) :
    ∀ (m : List (String × String)), k ∈ m.map (fun p => p.1) →
    (m.map (fun p => if p.1 = k then (k, v) else p)).lookup k = some v := by
  intro m
  induction m with
  | nil => intro h; simp at h
  | cons p t ih =>
    obtain ⟨pk, pv⟩ := p
    intro h
    rw [List.map_cons] at h ⊢
    by_cases hp : pk = k
    · rw [if_pos hp]
      simp [List.lookup]
    · rw [if_neg hp]
      have hbeq : (k == pk) = false := beq_false_of_ne (fun hkp => hp hkp.symm)
      simp only [List.lookup, hbeq]
      rcases List.mem_cons.mp h with heq | hmem
      · exact absurd heq.symm hp
      · exact ih hmem

/-- Looking up an appended fresh entry. -/
theorem lookup_append_fresh {k : String} (v : String) :
    ∀ (m : List (String × String)), k ∉ m.map (fun p => p.1) →
    (m ++ [(k, v)]).lookup k = some v := by
  intro m
  induction m with
  | nil => intro _; simp [List.lookup]
  | cons p t ih =>
    obtain ⟨pk, pv⟩ := p
    intro h
    rw [List.map_cons] at h
    have hp : pk ≠ k := fun hc => h (List.mem_cons.mpr (Or.inl hc.symm))
    have hbeq : (k == pk) = false := beq_false_of_ne (fun hkp => hp hkp.symm)
    rw [List.cons_append]
    simp only [List.lookup, hbeq]
    exact ih (fun hc => h (List.mem_cons.mpr (Or.inr hc)))

/-- Overwriting the entries holding key `k` does not change another
key's lookup. -/
theorem lookup_overwrite_other {k k' : String} (v : String) (h : k' ≠ k) :
    ∀ (m : List (String × String)),
    (m.map (fun p => if p.1 = k then (k, v) else p)).lookup k' = m.lookup k' := by
  intro m
  induction m with
  | nil => rfl
  | cons p t ih =>
    obtain ⟨pk, pv⟩ := p
    rw [List.map_cons]
    by_cases hp : pk = k
    · rw [if_pos hp]
      have hbeq1 : (k' == k) = false := beq_false_of_ne h
      have hbeq2 : (k' == pk) = false := beq_false_of_ne (hp ▸ h)
      simp only [List.lookup, hbeq1, hbeq2]
      exact ih
    · rw [if_neg hp]
      simp only [List.lookup]
      cases hbeq : (k' == pk) with
      | true => rfl
      | false => exact ih

/-- Appending a fresh entry for key `k` does not change another key's
lookup. -/
theorem lookup_append_other {k k' : String} (v : String) (h : k' ≠ k) :
    ∀ (m : List (String × String)),
    (m ++ [(k, v)]).lookup k' = m.lookup k' := by
  intro m
  induction m with
  | nil =>
    have hbeq : (k' == k) = false := beq_false_of_ne h
    simp [List.lookup, hbeq]
  | cons p t ih =>
    obtain ⟨pk, pv⟩ := p
    rw [List.cons_append]
    simp only [List.lookup]
    cases hbeq : (k' == pk) with
    | true => rfl
    | false => exact ih

/-- `mapSet` makes `lookup` find the written value. -/
theorem mapSet_lookup_self (m : List (String × String)) (k v : String) :
    (mapSet m k v).lookup k = some v := by
  unfold mapSet
  by_cases hc : k ∈ m.map (fun p => p.1)
  · rw [if_pos (by simpa using hc)]
    exact lookup_overwrite v m hc
  · rw [if_neg (by simpa using hc)]
    exact lookup_append_fresh v m hc

/-- `mapSet` leaves other keys' lookups unchanged. -/
theorem mapSet_lookup_other (m : List (String × String)) (k v k' : String)
    (h : k' ≠ k) : (mapSet m k v).lookup k' = m.lookup k' := by
  unfold mapSet
  split
  · exact lookup_overwrite_other v h m
  · exact lookup_append_other v h m

/-- `lookup` fails off the key set. -/
theorem lookup_none_of_not_mem {k : String} :
    ∀ {m : List (String × String)}, k ∉ m.map (fun p => p.1) → m.lookup k = none := by
  intro m
  induction m with
  | nil => intro _; rfl
  | cons p t ih =>
    obtain ⟨pk, pv⟩ := p
    intro h
    rw [List.map_cons] at h
    have hp : pk ≠ k := fun hc => h (List.mem_cons.mpr (Or.inl hc.symm))
    have hbeq : (k == pk) = false := beq_false_of_ne (fun hkp => hp hkp.symm)
    simp only [List.lookup, hbeq]
    exact ih (fun hc => h (List.mem_cons.mpr (Or.inr hc)))

/-- The env/metadata merge of ExpandTenants: the overlay wins, the base
fills the rest (overlay keys distinct, as a Go map's are). -/
theorem mergeStringMap_lookup {ov : List (String × String)}
    (hnd : (ov.map (fun p => p.1)).Nodup) :
    ∀ (base : List (String × String)) (k : String),
    (mergeStringMap base ov).lookup k =
      (match ov.lookup k with
        | some v => some v
        | none => base.lookup k) := by
  induction ov with
  | nil => intro base k; rfl
  | cons p rest ih =>
    intro base k
    obtain ⟨pk, pv⟩ := p
    rw [List.map_cons, List.nodup_cons] at hnd
    have hstep : mergeStringMap base ((pk, pv) :: rest) =
        mergeStringMap (mapSet base pk pv) rest := rfl
    rw [hstep, ih hnd.2]
    by_cases hk : k = pk
    · subst hk
      have hrest : rest.lookup k = none := lookup_none_of_not_mem hnd.1
      have houter : ((k, pv) :: rest).lookup k = some pv := by
        simp [List.lookup]
      rw [hrest, houter]
      exact mapSet_lookup_self base k pv
    · have hbeq : (k == pk) = false := beq_false_of_ne hk
      have houter : ((pk, pv) :: rest).lookup k = rest.lookup k := by
        simp only [List.lookup, hbeq]
      rw [houter]
      cases hrl : rest.lookup k with
      | some v => rfl
      | none => exact mapSet_lookup_other base pk pv k hk

/-- Counterexample to C7 as stated: the overlay's links are NOT applied
in override mode.  A kibana base with a link to elasticsearch and an
overlay that sets its own links produce a service whose links are the
base's, rewritten to the tenant namespace — not the overlay's. -/
theorem expandTenants_overlay_links_ignored :
    (ExpandTenants [kibanaBase]
        [{ id := "tenant-1",
           services := [{ baseName := "kibana", override := kibanaOverlay }] }]).map
      (fun s => s.links) =
      [[{ service := "tenant-1-elasticsearch", envVar := "ES_HOSTS", port := 9200,
          protocol := "" }]] ∧
    kibanaOverlay.links =
      [{ service := "other", envVar := "OTHER_URL", port := 1234, protocol := "" }] ∧
    kibanaOverlay.links ≠
      [{ service := "tenant-1-elasticsearch", envVar := "ES_HOSTS", port := 9200,
          protocol := "" }] := by
  exact ⟨by decide, by decide, by decide⟩

/-- C7 (amended): in tenant override mode the produced service is the
base renamed to tenant-base with a tenant-prefixed image path; the
non-zero overlay fields vcpus, memory, kernel args and health check
are applied; env and metadata are merged with the overlay winning; the
overlay's port-forwards replace the base's wholesale when non-empty;
but the overlay's links are ignored — the service keeps the base's
links, rewritten to tenant-prefixed targets — as are the overlay's
network, node type, anti-affinity group, cross-node links and
node-host-ip-env fields. -/
theorem expandTenants_override_fields (b : ServiceSpec) (tid : String) (ov : TenantOverride)
    (hnde : (ov.env.map (fun p => p.1)).Nodup)
    (hndm : (ov.metadata.map (fun p => p.1)).Nodup) :
    ∃ spec, ExpandTenants [b]
        [{ id := tid, services := [{ baseName := b.name, override := ov }] }] = [spec] ∧
      spec.name = tid ++ "-" ++ b.name ∧
      spec.image = deriveTenantImage b.image tid ∧
      spec.vcpus = (if ov.vcpus ≠ 0 then ov.vcpus else b.vcpus) ∧
      spec.memoryMB = (if ov.memoryMB ≠ 0 then ov.memoryMB else b.memoryMB) ∧
      spec.kernelArgs = (if ov.kernelArgs ≠ "" then ov.kernelArgs else b.kernelArgs) ∧
      spec.healthCheck = (match ov.healthCheck with
        | some hc => some hc
        | none => b.healthCheck) ∧
      (∀ k, spec.env.lookup k = (match ov.env.lookup k with
        | some v => some v
        | none => b.env.lookup k)) ∧
      (∀ k, spec.metadata.lookup k = (match ov.metadata.lookup k with
        | some v => some v
        | none => b.metadata.lookup k)) ∧
      spec.portForwards = (if 0 < ov.portForwards.length then ov.portForwards
        else b.portForwards) ∧
      spec.links = b.links.map (fun l => { l with service := tid ++ "-" ++ l.service }) ∧
      spec.nodeType = b.nodeType ∧
      spec.network = b.network ∧
      spec.antiAffinityGroup = b.antiAffinityGroup ∧
      spec.crossNodeLinks = b.crossNodeLinks ∧
      spec.nodeHostIPEnv = b.nodeHostIPEnv := by
  have hbase : baseByName [b] b.name = some b := by
    unfold baseByName
    simp
  have hexp : ExpandTenants [b]
      [{ id := tid, services := [{ baseName := b.name, override := ov }] }] =
      [applyOverride tid b ov] := by
    unfold ExpandTenants
    simp [hbase]
  refine ⟨applyOverride tid b ov, hexp, rfl, rfl, rfl, rfl, rfl, rfl, ?_, ?_, ?_, rfl, rfl,
    rfl, rfl, rfl, rfl⟩
  · intro k
    show (if ov.env.length > 0 then mergeStringMap b.env ov.env else b.env).lookup k = _
    by_cases he : ov.env.length > 0
    · rw [if_pos he, mergeStringMap_lookup hnde]
    · have hnil : ov.env = [] := by
        cases hcase : ov.env with
        | nil => rfl
        | cons a l => rw [hcase] at he; simp at he
      rw [if_neg he, hnil]
      rfl
  · intro k
    show (if ov.metadata.length > 0 then mergeStringMap b.metadata ov.metadata
        else b.metadata).lookup k = _
    by_cases hm : ov.metadata.length > 0
    · rw [if_pos hm, mergeStringMap_lookup hndm]
    · have hnil : ov.metadata = [] := by
        cases hcase : ov.metadata with
        | nil => rfl
        | cons a l => rw [hcase] at hm; simp at hm
      rw [if_neg hm, hnil]
      rfl
  · show (if ov.portForwards.length > 0 then ov.portForwards else b.portForwards) = _
    rcases ov.portForwards with _ | ⟨a, l⟩ <;> rfl

/-- Witness for C7 at the kibana example: the produced service is
renamed and its image path is tenant-prefixed. -/
theorem expandTenants_override_fields_witness :
    (ExpandTenants [kibanaBase]
        [{ id := "tenant-1",
           services := [{ baseName := kibanaBase.name, override := kibanaOverlay }] }]).map
      (fun s => (s.name, s.image)) =
      [("tenant-1-kibana", "/var/lib/images/tenant-1-kibana-rootfs.ext4")] := by
  obtain ⟨spec, hexp, hname, himage, _⟩ :=
    expandTenants_override_fields kibanaBase "tenant-1" kibanaOverlay (by decide) (by decide)
  rw [hexp]
  simp only [List.map_cons, List.map_nil]
  rw [hname, himage]
  decide
